import Mathlib

set_option linter.dupNamespace false

/-!
# Verification of `watermark.go` (package `watermark`)

A shallow embedding of the single source file of the package: the configuration
record `Watermark`, its constructors and setter, the text overlay renderer
`drawStringImage` and the pipeline `Watermark.Watermark`.

Conventions of the embedding.

* Go `string` values are lists of characters (`GoString`); Go `int` is `Int`.
* The `float64` fields `FontSize` and `Dpi` are modelled on their integer values.
  Every constant of the source (14, 72, 12, 12 * 1.5) is an integer, and for an
  integer DPI the product `x * dpi * (64.0 / 72.0)` of `PointToFixed` truncates to
  the exact quotient `x * dpi * 64 / 72`: the factor `64.0 / 72.0` is `8/9` rounded
  down by a relative `2^-54`, which a `float64` product absorbs when the exact
  result is an integer and which cannot cross an integer when it is not (its
  fractional part is then a multiple of `1/9`). A DPI that is not an integer is not
  covered.
* The coordinates of a `fixed.Point26_6` are `int32`: they are integers kept in
  range by `toInt32`, so that `pt.Y += ...` wraps as in Go. What the conversion of
  a `float64` beyond the range of `int32` gives is left to the implementation by
  the Go specification, and is a field of `Env`.
* Code of other packages (the file system, the image codecs, the resampling
  filter and the glyph rasteriser) is not part of the source file. What the
  pipeline needs of it is either a field of the record `Env`, left arbitrary, or a
  definition stating the documented behaviour of the library function.
* The pipeline is instrumented: besides what the Go function returns, a `Run`
  records the rasters built on the way and the `DrawString` calls made.
-/

namespace GoStrings

variable {α : Type} [DecidableEq α]

/-- Test whether `s` begins with `p` (Go: `strings.HasPrefix`). -/
def startsWith : List α → List α → Bool
  | _, [] => true
  | [], _ :: _ => false
  | c :: s, d :: p => c = d && startsWith s p

/-- Modelled from the spec: `strings.Index` of the Go standard library, the
position of the first occurrence of `sep` in `s`, `none` for Go's `-1`. -/
def Index : List α → List α → Option Nat
  | [], sep => if sep = [] then some 0 else none
  | c :: s, sep =>
    if startsWith (c :: s) sep then some 0 else (Index s sep).map (· + 1)

/-- The loop of `strings.Count`: each round finds the next occurrence and
continues behind it. The first argument bounds the number of rounds. -/
def countLoop (sep : List α) : Nat → List α → Nat
  | 0, _ => 0
  | fuel + 1, s =>
    match Index s sep with
    | none => 0
    | some i => countLoop sep fuel (s.drop (i + sep.length)) + 1

/-- Modelled from the spec: `strings.Count` for a non-empty separator, the number
of non-overlapping occurrences of `sep` in `s`. A round consumes at least one
character, so `s.length` rounds are enough (`countLoop_fuel`). -/
def Count (s sep : List α) : Nat := countLoop sep s.length s

/-- The loop of `genSplit`: at most `n` cuts, the rest of the string is the last
element. -/
def genSplitLoop (sep : List α) : Nat → List α → List (List α)
  | 0, s => [s]
  | n + 1, s =>
    match Index s sep with
    | none => [s]
    | some m => s.take m :: genSplitLoop sep n (s.drop (m + sep.length))

/-- Modelled from the spec: `strings.Split(s, sep)` for a non-empty separator,
that is `genSplit(s, sep, 0, -1)`: `n = Count(s, sep) + 1` elements, capped at
`len(s) + 1`, cut at the successive first occurrences of `sep`. -/
def Split (s sep : List α) : List (List α) :=
  genSplitLoop sep (min (Count s sep + 1) (s.length + 1) - 1) s

/-- Modelled from the spec: `strings.Join(elems, sep)`. -/
def Join (elems : List (List α)) (sep : List α) : List α :=
  sep.intercalate elems

end GoStrings

namespace watermark

open GoStrings

/-- A Go `string`. -/
abbrev GoString := List Char

/-- A Go `error`, identified with the text `Error()` returns. -/
structure GoError where
  msg : GoString
  deriving DecidableEq, Repr

/-- The separator of `drawStringImage`: carriage return, line feed. -/
def crlf : GoString := ['\r', '\n']

/-- The result of `fmt.Errorf("image decode error(%v)", err)`. -/
def decodeErrorf (err : GoError) : GoError :=
  ⟨"image decode error(".toList ++ err.msg ++ ")".toList⟩

/-- The result of `fmt.Errorf("c.DrawString(%s) error(%v)", s, err)`. -/
def drawStringErrorf (s : GoString) (err : GoError) : GoError :=
  ⟨"c.DrawString(".toList ++ s ++ ") error(".toList ++ err.msg ++ ")".toList⟩

/-! ## Package `image`: points, rectangles, colours, rasters -/

/-- Go: `image.Point`. -/
structure Point where
  X : Int
  Y : Int
  deriving DecidableEq, Repr

/-- Go: `image.Rectangle`. -/
structure Rectangle where
  Min : Point
  Max : Point
  deriving DecidableEq, Repr

/-- Go: `image.ZP`. -/
def ZP : Point := ⟨0, 0⟩

/-- Go: `image.Pt`. -/
def Pt (X Y : Int) : Point := ⟨X, Y⟩

/-- Go: `image.Rect`, which swaps coordinates so that the result is well formed. -/
def Rect (x0 y0 x1 y1 : Int) : Rectangle :=
  ⟨⟨min x0 x1, min y0 y1⟩, ⟨max x0 x1, max y0 y1⟩⟩

def Point.Add (p q : Point) : Point := ⟨p.X + q.X, p.Y + q.Y⟩

def Point.Sub (p q : Point) : Point := ⟨p.X - q.X, p.Y - q.Y⟩

def Rectangle.Dx (r : Rectangle) : Int := r.Max.X - r.Min.X

def Rectangle.Dy (r : Rectangle) : Int := r.Max.Y - r.Min.Y

def Rectangle.Empty (r : Rectangle) : Bool :=
  decide (r.Min.X ≥ r.Max.X) || decide (r.Min.Y ≥ r.Max.Y)

def Rectangle.Add (r : Rectangle) (p : Point) : Rectangle :=
  ⟨r.Min.Add p, r.Max.Add p⟩

/-- Go: `Rectangle.Intersect`; an empty intersection is the zero rectangle. -/
def Rectangle.Intersect (r s : Rectangle) : Rectangle :=
  let r1 : Rectangle :=
    ⟨⟨if r.Min.X < s.Min.X then s.Min.X else r.Min.X,
      if r.Min.Y < s.Min.Y then s.Min.Y else r.Min.Y⟩,
     ⟨if r.Max.X > s.Max.X then s.Max.X else r.Max.X,
      if r.Max.Y > s.Max.Y then s.Max.Y else r.Max.Y⟩⟩
  if r1.Empty then ⟨ZP, ZP⟩ else r1

/-- Go: `Point.In`. -/
def Point.In (p : Point) (r : Rectangle) : Bool :=
  decide (r.Min.X ≤ p.X) && decide (p.X < r.Max.X) &&
    decide (r.Min.Y ≤ p.Y) && decide (p.Y < r.Max.Y)

/-- Go: `uint8`. -/
abbrev uint8 := Fin 256

/-- Go: the conversion `uint8(v)` of a wider unsigned value, which keeps the low
eight bits. -/
def toUint8 (v : Nat) : uint8 := Fin.ofNat v

/-- Go: `color.NRGBA`, four bytes, colour not premultiplied by alpha. -/
structure NRGBA where
  R : uint8
  G : uint8
  B : uint8
  A : uint8
  deriving DecidableEq, Repr

/-- Go: `color.RGBA`, four bytes, colour premultiplied by alpha. -/
structure RGBA where
  R : uint8
  G : uint8
  B : uint8
  A : uint8
  deriving DecidableEq, Repr

/-- Go: the four `uint32` values a `Color.RGBA()` call returns, 16 bits each,
premultiplied by alpha; also `color.RGBA64`. -/
structure RGBA64 where
  R : Nat
  G : Nat
  B : Nat
  A : Nat
  deriving DecidableEq, Repr

/-- Go: `color.Transparent` stored in an `image.RGBA`: all four bytes zero. -/
def RGBA.Transparent : RGBA := ⟨0, 0, 0, 0⟩

/-- Go: `v |= v << 8`, a byte widened to 16 bits. -/
def widen (v : uint8) : Nat := v.val ||| (v.val <<< 8)

/-- Go: `(color.RGBA).RGBA()`. -/
def RGBA.toRGBA64 (c : RGBA) : RGBA64 :=
  ⟨widen c.R, widen c.G, widen c.B, widen c.A⟩

/-- Go: `(color.NRGBA).RGBA()`: widen, multiply by alpha, divide by `0xff`. -/
def NRGBA.toRGBA64 (c : NRGBA) : RGBA64 :=
  ⟨widen c.R * c.A.val / 0xff, widen c.G * c.A.val / 0xff, widen c.B * c.A.val / 0xff,
   widen c.A⟩

/-- Go: `color.NRGBAModel.Convert` applied to a 16-bit premultiplied colour. -/
def nrgbaModel (c : RGBA64) : NRGBA :=
  if c.A = 0xffff then
    ⟨toUint8 (c.R >>> 8), toUint8 (c.G >>> 8), toUint8 (c.B >>> 8), 0xff⟩
  else if c.A = 0 then
    ⟨0, 0, 0, 0⟩
  else
    ⟨toUint8 ((c.R * 0xffff % 2 ^ 32 / c.A) >>> 8), toUint8 ((c.G * 0xffff % 2 ^ 32 / c.A) >>> 8),
     toUint8 ((c.B * 0xffff % 2 ^ 32 / c.A) >>> 8), toUint8 (c.A >>> 8)⟩

/-- Go: `*image.NRGBA`, a raster of `color.NRGBA` pixels over a rectangle. -/
structure NRGBAImage where
  Rect : Rectangle
  Pix : Int → Int → NRGBA

/-- Go: `*image.RGBA`, a raster of `color.RGBA` pixels over a rectangle. -/
structure RGBAImage where
  Rect : Rectangle
  Pix : Int → Int → RGBA

/-- Every pixel inside the bounds has alpha `0xff` (Go: `(*image.NRGBA).Opaque()`
returns true). -/
def NRGBAImage.Solid (p : NRGBAImage) : Prop :=
  ∀ x y, (Point.mk x y).In p.Rect = true → (p.Pix x y).A = 0xff

def NRGBAImage.Bounds (p : NRGBAImage) : Rectangle := p.Rect

def RGBAImage.Bounds (p : RGBAImage) : Rectangle := p.Rect

/-- Go: `(*image.NRGBA).NRGBAAt`: the zero colour outside the bounds. -/
def NRGBAImage.At (p : NRGBAImage) (x y : Int) : NRGBA :=
  if (Point.mk x y).In p.Rect then p.Pix x y else ⟨0, 0, 0, 0⟩

/-- Go: `(*image.RGBA).RGBAAt`: the zero colour outside the bounds. -/
def RGBAImage.At (p : RGBAImage) (x y : Int) : RGBA :=
  if (Point.mk x y).In p.Rect then p.Pix x y else ⟨0, 0, 0, 0⟩

/-- Go: `image.NewNRGBA(r)`: every pixel zero. -/
def NewNRGBA (r : Rectangle) : NRGBAImage := ⟨r, fun _ _ => ⟨0, 0, 0, 0⟩⟩

/-- Go: `image.NewRGBA(r)`: every pixel zero. -/
def NewRGBA (r : Rectangle) : RGBAImage := ⟨r, fun _ _ => ⟨0, 0, 0, 0⟩⟩

/-- Go: `&image.NRGBA{}`, the empty image `imaging` returns for a degenerate size. -/
def emptyNRGBA : NRGBAImage := NewNRGBA ⟨ZP, ZP⟩

/-! ## Package `image/draw` -/

/-- The rectangle `draw.Draw(dst, r, src, sp, op)` really paints: `r` clipped to
the bounds of `dst` and to the bounds of `src` moved by `r.Min - sp`
(Go: `draw.clip` with a nil mask). -/
def clip (dstBounds r srcBounds : Rectangle) (sp : Point) : Rectangle :=
  (r.Intersect dstBounds).Intersect (srcBounds.Add (r.Min.Sub sp))

/-- Modelled from the spec: `draw.Draw(dst, r, src, sp, draw.Src)` for two
`*image.NRGBA` rasters: inside the clipped rectangle the pixel of `src` is
stored verbatim (straight overwrite, no blending). -/
def DrawSrc (dst : NRGBAImage) (r : Rectangle) (src : NRGBAImage) (sp : Point) : NRGBAImage :=
  ⟨dst.Rect, fun x y =>
    if (Point.mk x y).In (clip dst.Bounds r src.Bounds sp) then
      src.At (x - r.Min.X + sp.X) (y - r.Min.Y + sp.Y)
    else dst.Pix x y⟩

/-- The arithmetic of `draw.Over` on one pixel without a mask (`ma = m = 0xffff`):
source and destination are read as 16-bit premultiplied values, blended in
`uint32`, cut to `uint16` and stored through `color.NRGBAModel`. -/
def overPixel (d : NRGBA) (s : RGBA) : NRGBA :=
  let m := 0xffff
  let sc := s.toRGBA64
  let dc := d.toRGBA64
  let a := m - sc.A * m / m
  nrgbaModel
    ⟨(dc.R * a + sc.R * m) % 2 ^ 32 / m % 2 ^ 16, (dc.G * a + sc.G * m) % 2 ^ 32 / m % 2 ^ 16,
     (dc.B * a + sc.B * m) % 2 ^ 32 / m % 2 ^ 16, (dc.A * a + sc.A * m) % 2 ^ 32 / m % 2 ^ 16⟩

/-- Modelled from the spec: `draw.Draw(dst, r, src, sp, draw.Over)` for an
`*image.NRGBA` destination and an `*image.RGBA` source: standard alpha-over
compositing inside the clipped rectangle, nothing outside it. -/
def DrawOver (dst : NRGBAImage) (r : Rectangle) (src : RGBAImage) (sp : Point) : NRGBAImage :=
  ⟨dst.Rect, fun x y =>
    if (Point.mk x y).In (clip dst.Bounds r src.Bounds sp) then
      overPixel (dst.At x y) (src.At (x - r.Min.X + sp.X) (y - r.Min.Y + sp.Y))
    else dst.Pix x y⟩

/-! ## Package `imaging` -/

/-- The pixels a resampling filter such as `imaging.Lanczos` computes: source
image, target width and height, position. Floating-point code of the library,
left arbitrary. -/
abbrev ResampleFilter := NRGBAImage → Int → Int → Int → Int → NRGBA

/-- Modelled from the spec: `imaging.Resize(img, width, height, filter)` by its
size rule. A negative width or height, or both zero, gives an empty image, and
so does an empty source; a zero dimension is inferred proportionally (rounded
to nearest, minimum 1); the result has bounds `(0,0)-(dstW,dstH)`. -/
def Resize (img : NRGBAImage) (width height : Int) (filter : ResampleFilter) : NRGBAImage :=
  if width < 0 ∨ height < 0 then emptyNRGBA
  else if width = 0 ∧ height = 0 then emptyNRGBA
  else
    let srcW := img.Bounds.Dx
    let srcH := img.Bounds.Dy
    if srcW ≤ 0 ∨ srcH ≤ 0 then emptyNRGBA
    else
      let dstW := if width = 0 then max 1 ((2 * height * srcW + srcH) / (2 * srcH)) else width
      let dstH := if height = 0 then max 1 ((2 * dstW * srcH + srcW) / (2 * srcW)) else height
      ⟨Rect 0 0 dstW dstH, filter img dstW dstH⟩

/-! ## Package `freetype` -/

/-- A parsed `*truetype.Font`, identified by a number. -/
abbrev Font := Nat

/-- Go: the conversion of an integer to `int32`, and the result of `int32`
arithmetic that overflows: the value is reduced modulo `2^32` into
`-2^31 .. 2^31 - 1`. -/
def toInt32 (v : Int) : Int := (v + 2147483648) % 4294967296 - 2147483648

/-- Go: `fixed.Point26_6`, two `fixed.Int26_6` (`int32`) coordinates in 1/64 of a
pixel. -/
structure Point26_6 where
  X : Int
  Y : Int
  deriving DecidableEq, Repr

/-- Go: `freetype.Pt(x, y)`, the pixel position `(x, y)` as `(x << 6, y << 6)`. -/
def freetypePt (x y : Int) : Point26_6 := ⟨toInt32 (x * 64), toInt32 (y * 64)⟩

/-- The settings of a `*freetype.Context` that `drawStringImage` makes. `src` is
the gray level of the uniform foreground colour. -/
structure Context where
  dpi : Int
  f : Font
  fontSize : Int
  clipRect : Rectangle
  dst : RGBAImage
  src : uint8

/-- The height of the em box of the context's font in pixels: the font size in
points at `dpi / 72` pixels per point. -/
def Context.emPixels (c : Context) : Int := c.fontSize * c.dpi / 72

/-- One call `c.DrawString(s, pt)`. -/
structure DrawCall where
  s : GoString
  pt : Point26_6
  deriving DecidableEq, Repr

/-! ## The environment -/

/-- The files of the file system, by path. -/
structure FS where
  files : GoString → Option (List uint8)

/-- The file system after `path` was created or truncated and `bytes` written. -/
def FS.write (fs : FS) (path : GoString) (bytes : List uint8) : FS :=
  ⟨fun q => if q = path then some bytes else fs.files q⟩

/-- Code of other packages the pipeline calls, left arbitrary. -/
structure Env where
  /-- The error of `os.OpenFile(path, O_WRONLY|O_CREATE|O_TRUNC, 0666)`, if any. -/
  OpenFile : FS → GoString → Option GoError
  /-- The error of opening a missing file for reading. -/
  notExist : GoString → GoError
  /-- Function `image.Decode` on the content of a file. -/
  Decode : List uint8 → Except GoError NRGBAImage
  /-- The filter `imaging.Lanczos`. -/
  Lanczos : ResampleFilter
  /-- Method `(*freetype.Context).DrawString`, which draws into the pixels of
  `c.dst`: the pixels after drawing, or an error. -/
  DrawString : Context → GoString → Point26_6 → Except GoError (Int → Int → RGBA)
  /-- Function `imaging.Save`: the bytes left in the file and the error, if any. -/
  Save : NRGBAImage → GoString → List uint8 × Option GoError
  /-- Function `freetype.ParseFont`. -/
  ParseFont : List uint8 → Except GoError Font
  /-- The result of converting to `fixed.Int26_6` a `float64` whose truncated
  value, the argument, is beyond the range of `int32`. -/
  Int26_6OutOfRange : Int → Int

/-- Go: `(*freetype.Context).PointToFixed(x)`, that is
`fixed.Int26_6(x * float64(c.dpi) * (64.0 / 72.0))`; the conversion truncates
towards zero, and beyond the range of `int32` its result is the
implementation's. -/
def Context.PointToFixed (env : Env) (c : Context) (x : Int) : Int :=
  let v := Int.tdiv (x * c.dpi * 64) 72
  if -2147483648 ≤ v ∧ v < 2147483648 then v else toInt32 (env.Int26_6OutOfRange v)

/-- Go: `ioutil.ReadFile`. -/
def ReadFile (env : Env) (fs : FS) (path : GoString) : Except GoError (List uint8) :=
  match fs.files path with
  | none => .error (env.notExist path)
  | some bytes => .ok bytes

/-- Go: `imaging.Open`: open the file for reading and decode its content. -/
def imagingOpen (env : Env) (fs : FS) (filename : GoString) : Except GoError NRGBAImage :=
  match fs.files filename with
  | none => .error (env.notExist filename)
  | some bytes => env.Decode bytes

/-! ## `watermark.go` -/

def defaultFontGrayscaleColor : uint8 := 0

def defaultFontSize : Int := 14

def defaultDpi : Int := 72

def defaultFontAdress : GoString := "C:\\Windows\\Fonts\\simhei.ttf".toList

def defaultWatermarkStartPoint : Point := Pt 0 0

def defaultResizeWith : Int := 0

def defaultResizeHeight : Int := 0

/-- Go: `type Watermark struct`. -/
structure Watermark where
  FontGrayscaleColor : uint8
  FontSize : Int
  Dpi : Int
  FontAdress : GoString
  font : Font
  WatermarkStartPoint : Point
  ResizeWith : Int
  ResizeHeight : Int
  deriving DecidableEq, Repr

/-- The assignment `this.ResizeWith = w`. -/
def Watermark.setResizeWith (this : Watermark) (w : Int) : Watermark :=
  ⟨this.FontGrayscaleColor, this.FontSize, this.Dpi, this.FontAdress, this.font,
   this.WatermarkStartPoint, w, this.ResizeHeight⟩

/-- Go: `loadingFont`. -/
def loadingFont (env : Env) (fs : FS) (fontPath : GoString) : Except GoError Font :=
  match ReadFile env fs fontPath with
  | .error err => .error err
  | .ok fontBytes =>
    match env.ParseFont fontBytes with
    | .error err => .error err
    | .ok font => .ok font

/-- Go: `NewWatermark`. -/
def NewWatermark (env : Env) (fs : FS) (fontAdress : GoString) (grayscaleColor : uint8)
    (fontSize dpi : Int) (WatermarkStartPoint : Point) (resizeWith resizeHeight : Int) :
    Except GoError Watermark :=
  match loadingFont env fs fontAdress with
  | .error err => .error err
  | .ok font =>
    .ok ⟨grayscaleColor, fontSize, dpi, [], font, WatermarkStartPoint, resizeWith, resizeHeight⟩

/-- Go: `NewDefaultWatermark`. -/
def NewDefaultWatermark (env : Env) (fs : FS) : Except GoError Watermark :=
  NewWatermark env fs defaultFontAdress defaultFontGrayscaleColor defaultFontSize defaultDpi
    defaultWatermarkStartPoint defaultResizeWith defaultResizeHeight

/-- Go: `(*Watermark).SetWatermarkStartPoint`. -/
def Watermark.SetWatermarkStartPoint (this : Watermark) (X Y : Int) : Watermark :=
  ⟨this.FontGrayscaleColor, this.FontSize, this.Dpi, this.FontAdress, this.font,
   ⟨X, Y⟩, this.ResizeWith, this.ResizeHeight⟩

/-- The loop of `drawStringImage` over the lines: draw, give up at the first
error, move the cursor down by `c.PointToFixed(12 * 1.5)` in `int32`
arithmetic. The third component
of the state lists the `DrawString` calls made so far. -/
def drawLines (env : Env) (c : Context) :
    List GoString → Point26_6 → RGBAImage → List DrawCall →
      List DrawCall × Except GoError RGBAImage
  | [], _, rgba, calls => (calls, .ok rgba)
  | s :: rest, pt, rgba, calls =>
    match env.DrawString ⟨c.dpi, c.f, c.fontSize, c.clipRect, rgba, c.src⟩ s pt with
    | .error err => (calls ++ [⟨s, pt⟩], .error (drawStringErrorf s err))
    | .ok pix =>
      drawLines env c rest ⟨pt.X, toInt32 (pt.Y + c.PointToFixed env 18)⟩ ⟨rgba.Rect, pix⟩
        (calls ++ [⟨s, pt⟩])

/-- The calls of a loop that no error cuts short: one per line, the cursor moving
down by `step` from one line to the next in `int32` arithmetic. Used to state
what `drawLines` does. -/
def callsFrom (step : Int) : List GoString → Point26_6 → List DrawCall
  | [], _ => []
  | s :: rest, pt => ⟨s, pt⟩ :: callsFrom step rest ⟨pt.X, toInt32 (pt.Y + step)⟩

/-- Go: `(*Watermark).drawStringImage`, with the list of `DrawString` calls. -/
def Watermark.drawStringImage (env : Env) (this : Watermark) (text : GoString) (width height : Int) :
    List DrawCall × Except GoError RGBAImage :=
  let rgba := NewRGBA (Rect 0 0 width height)
  let c : Context := ⟨this.Dpi, this.font, this.FontSize, rgba.Bounds, rgba, this.FontGrayscaleColor⟩
  let pt := freetypePt 10 ((10 : Int) + (c.PointToFixed env 12 >>> 8))
  drawLines env c (Split text crlf) pt rgba []

/-- How a call of `Watermark` ends: the process is terminated by
`haserr.Fatal`, or the call returns an error or `nil`. -/
inductive Outcome where
  | fatal (err : GoError)
  | returned (err : Option GoError)
  deriving DecidableEq, Repr

/-- A call of `Watermark`: the receiver and the file system afterwards, how the
call ended, and the values built on the way (the resized source, the overlay,
the composited raster, the `DrawString` calls). -/
structure Run where
  this : Watermark
  fs : FS
  out : Outcome
  origin : Option NRGBAImage
  mask : Option RGBAImage
  dst : Option NRGBAImage
  calls : List DrawCall

/-- Go: `(*Watermark).Watermark`. -/
def Watermark.Watermark (env : Env) (this : Watermark) (fs : FS) (srcFile dstFile text : GoString) : Run :=
  match env.OpenFile fs dstFile with
  | some err => ⟨this, fs, .fatal err, none, none, none, []⟩
  | none =>
    let fs1 := fs.write dstFile []
    match imagingOpen env fs1 srcFile with
    | .error err => ⟨this, fs1, .returned (some (decodeErrorf err)), none, none, none, []⟩
    | .ok origin0 =>
      let this1 :=
        if this.ResizeWith = 0 then this.setResizeWith origin0.Bounds.Max.X else this
      let origin := Resize origin0 this1.ResizeWith this1.ResizeHeight env.Lanczos
      let dst := NewNRGBA origin.Bounds
      let dst1 := DrawSrc dst dst.Bounds origin ZP
      match this1.drawStringImage env text origin.Bounds.Max.X (defaultFontSize + 1) with
      | (calls, .error err) =>
        ⟨this1, fs1, .returned (some (decodeErrorf err)), some origin, none, some dst1, calls⟩
      | (calls, .ok mask) =>
        let dst2 := DrawOver dst1 (mask.Bounds.Add this1.WatermarkStartPoint) mask ZP
        let saved := env.Save dst2 dstFile
        ⟨this1, fs1.write dstFile saved.1, .returned saved.2, some origin, some mask, some dst2,
         calls⟩

/-! ## Concrete inputs -/

/-- The path `a.png`. -/
def aPng : GoString := "a.png".toList

/-- The path `b.png`. -/
def bPng : GoString := "b.png".toList

/-- The path `c.png`. -/
def cPng : GoString := "c.png".toList

/-- The text `SAMPLE`. -/
def sampleText : GoString := "SAMPLE".toList

/-- A text of two lines. -/
def twoLineText : GoString := "a\r\nb".toList

/-- A text whose only line break is a bare line feed. -/
def lfText : GoString := "a\nb".toList

/-- The path `d.gif`. -/
def dGif : GoString := "d.gif".toList

/-- The text of `n + 1` lines `a`: `n` times `a` and the separator, then `a`. -/
def aLines (n : Nat) : GoString := (List.replicate n ('a' :: crlf)).flatten ++ ['a']

/-- An opaque image of the given size whose bounds start at `(off, off)`, as the
first frame of a GIF placed at an offset in its logical screen decodes. -/
def offsetImage (w h off : Int) : NRGBAImage :=
  ⟨⟨⟨off, off⟩, ⟨off + w, off + h⟩⟩, fun _ _ => ⟨1, 2, 3, 255⟩⟩

/-- An opaque image of the given size. -/
def exampleImage (w h : Int) : NRGBAImage := ⟨Rect 0 0 w h, fun _ _ => ⟨1, 2, 3, 255⟩⟩

/-- An environment in which every file opens, a non-empty file decodes to an image
as wide as its first byte and 4 pixels high, placed at the offset its second
byte gives, if any, drawing never fails and leaves the raster as it is, and
saving succeeds. -/
def exampleEnv : Env where
  OpenFile := fun _ _ => none
  notExist := fun _ => ⟨"no such file".toList⟩
  Decode := fun b =>
    match b with
    | [] => .error ⟨"image: unknown format".toList⟩
    | [w] => .ok (exampleImage w.val 4)
    | w :: off :: _ => .ok (offsetImage w.val 4 off.val)
  Lanczos := fun _ _ _ _ _ => ⟨9, 9, 9, 255⟩
  DrawString := fun c _ _ => .ok c.dst.Pix
  Save := fun _ _ => ([1], none)
  ParseFont := fun _ => .ok 0
  Int26_6OutOfRange := fun _ => -2147483648

/-- The environment `exampleEnv` with a save that fails. -/
def saveFailEnv : Env where
  OpenFile := exampleEnv.OpenFile
  notExist := exampleEnv.notExist
  Decode := exampleEnv.Decode
  Lanczos := exampleEnv.Lanczos
  DrawString := exampleEnv.DrawString
  Save := fun _ _ => ([], some ⟨"disk full".toList⟩)
  ParseFont := exampleEnv.ParseFont
  Int26_6OutOfRange := exampleEnv.Int26_6OutOfRange

/-- A font as far as the pipeline sees it: a line that is not empty is drawn as a
single opaque pixel of the foreground colour, `rise` pixel rows above the
baseline at the cursor, if that pixel is inside the clip rectangle. -/
def dotDrawString (rise : Int) (c : Context) (s : GoString) (pt : Point26_6) :
    Except GoError (Int → Int → RGBA) :=
  .ok fun x y =>
    if s ≠ [] ∧ x = pt.X / 64 ∧ y = pt.Y / 64 - rise ∧ (Point.mk x y).In c.clipRect = true then
      ⟨c.src, c.src, c.src, 255⟩
    else c.dst.Pix x y

/-- The environment `exampleEnv` with a font whose glyphs reach the pixel row
above the baseline and stay inside the em box. -/
def inkEnv : Env where
  OpenFile := exampleEnv.OpenFile
  notExist := exampleEnv.notExist
  Decode := exampleEnv.Decode
  Lanczos := exampleEnv.Lanczos
  DrawString := fun c s pt => dotDrawString (min 1 c.emPixels) c s pt
  Save := exampleEnv.Save
  ParseFont := exampleEnv.ParseFont
  Int26_6OutOfRange := exampleEnv.Int26_6OutOfRange

/-- The environment `exampleEnv` with a font whose glyphs rise 20 pixel rows above
the baseline, beyond the em box of a 14-pixel font. -/
def tallGlyphEnv : Env where
  OpenFile := exampleEnv.OpenFile
  notExist := exampleEnv.notExist
  Decode := exampleEnv.Decode
  Lanczos := exampleEnv.Lanczos
  DrawString := dotDrawString 20
  Save := exampleEnv.Save
  ParseFont := exampleEnv.ParseFont
  Int26_6OutOfRange := exampleEnv.Int26_6OutOfRange

/-- Three image files: `a.png` of width 10, `c.png` of width 20, and `d.gif` of
width 10 whose frame is placed at `(5,5)`. -/
def exampleFS : FS :=
  ⟨fun p => if p = aPng then some [10] else if p = cPng then some [20]
    else if p = dGif then some [10, 5] else none⟩

/-- The configuration `NewDefaultWatermark` builds, with font 0. -/
def defaultWatermark : Watermark :=
  ⟨defaultFontGrayscaleColor, defaultFontSize, defaultDpi, [], 0, defaultWatermarkStartPoint,
   defaultResizeWith, defaultResizeHeight⟩

/-- The configuration `defaultWatermark` with another resize width and height. -/
def resizeWatermark (w h : Int) : Watermark :=
  ⟨defaultFontGrayscaleColor, defaultFontSize, defaultDpi, [], 0, defaultWatermarkStartPoint, w, h⟩

/-- The configuration `defaultWatermark` with font size 20. -/
def bigFontWatermark : Watermark :=
  ⟨defaultFontGrayscaleColor, 20, defaultDpi, [], 0, defaultWatermarkStartPoint,
   defaultResizeWith, defaultResizeHeight⟩

/-- The resized source of a default call on `a.png`. -/
def exampleOrigin : NRGBAImage := Resize (exampleImage 10 4) 10 0 exampleEnv.Lanczos

/-- The overlay of a default call on `a.png` in `exampleEnv`. -/
def exampleMask : RGBAImage := NewRGBA (Rect 0 0 10 15)

/-- The raster a default call on `a.png` composites in `exampleEnv`. -/
def exampleComposite : NRGBAImage :=
  DrawOver (DrawSrc (NewNRGBA exampleOrigin.Bounds) (NewNRGBA exampleOrigin.Bounds).Bounds
    exampleOrigin ZP) (exampleMask.Bounds.Add defaultWatermarkStartPoint) exampleMask ZP

/-- A path at which there is no file. -/
def missingPng : GoString := "missing.png".toList

end watermark

/-! ## Lemmas on `strings.Index`, `strings.Count` and `strings.Split` -/

namespace GoStrings

variable {α : Type} [DecidableEq α]

theorem startsWith_iff (s p : List α) : startsWith s p = true ↔ p <+: s := by
  induction p generalizing s with
  | nil => simp [startsWith]
  | cons d p ih =>
    cases s with
    | nil => simp [startsWith]
    | cons c s =>
      simp only [startsWith, Bool.and_eq_true, decide_eq_true_eq, ih, List.cons_prefix_cons]
      constructor
      · rintro ⟨h, h2⟩; exact ⟨h.symm, h2⟩
      · rintro ⟨h, h2⟩; exact ⟨h.symm, h2⟩

/-- What `Index` finds: the first position at which `sep` begins. -/
theorem Index_some {sep : List α} : ∀ {s : List α} {m : Nat}, Index s sep = some m →
    sep <+: s.drop m ∧ ∀ j, j < m → ¬ sep <+: s.drop j := by
  intro s
  induction s with
  | nil =>
    intro m h
    simp only [Index] at h
    split at h
    · next hs => cases h; subst hs; simp
    · cases h
  | cons c s ih =>
    intro m h
    simp only [Index] at h
    split at h
    · next hp =>
      cases h
      exact ⟨(startsWith_iff _ _).1 hp, fun j hj => absurd hj (Nat.not_lt_zero j)⟩
    · next hp =>
      cases hi : Index s sep with
      | none => rw [hi] at h; cases h
      | some k =>
        rw [hi] at h
        simp only [Option.map_some', Option.some.injEq] at h
        subst h
        obtain ⟨h1, h2⟩ := ih hi
        refine ⟨by simpa using h1, fun j hj => ?_⟩
        cases j with
        | zero => simpa [startsWith_iff] using hp
        | succ j => simpa using h2 j (by omega)

theorem Index_none {sep : List α} (hsep : sep ≠ []) : ∀ {s : List α}, Index s sep = none →
    ∀ j, ¬ sep <+: s.drop j := by
  intro s
  induction s with
  | nil =>
    intro _ j h
    simp only [List.drop_nil, List.prefix_nil] at h
    exact hsep h
  | cons c s ih =>
    intro h j
    simp only [Index] at h
    split at h
    · cases h
    · next hp =>
      cases hi : Index s sep with
      | some k => rw [hi] at h; cases h
      | none =>
        cases j with
        | zero => simpa [startsWith_iff] using hp
        | succ j => simpa using ih hi j

omit [DecidableEq α] in
theorem infix_iff_drop (sep l : List α) : sep <:+: l ↔ ∃ j, sep <+: l.drop j := by
  constructor
  · rintro ⟨a, b, rfl⟩
    exact ⟨a.length, by simp⟩
  · rintro ⟨j, t, ht⟩
    refine ⟨l.take j, t, ?_⟩
    rw [List.append_assoc, ht, List.take_append_drop]

theorem not_infix_of_Index_none {sep s : List α} (hsep : sep ≠ []) (h : Index s sep = none) :
    ¬ sep <:+: s := by
  rw [infix_iff_drop]
  rintro ⟨j, hj⟩
  exact Index_none hsep h j hj

theorem Index_none_of_absent {sep s : List α} (h : ¬ sep <:+: s) : Index s sep = none := by
  cases hi : Index s sep with
  | none => rfl
  | some m =>
    exact absurd ((infix_iff_drop sep s).2 ⟨m, (Index_some hi).1⟩) h

theorem Index_bound {sep s : List α} (hsep : sep ≠ []) {m : Nat} (h : Index s sep = some m) :
    m + sep.length ≤ s.length := by
  have h1 := (Index_some h).1.length_le
  have h2 : 0 < sep.length := List.length_pos.2 hsep
  simp only [List.length_drop] at h1
  omega

theorem Index_split {sep s : List α} {m : Nat} (h : Index s sep = some m) :
    s = s.take m ++ (sep ++ s.drop (m + sep.length)) := by
  obtain ⟨t, ht⟩ := (Index_some h).1
  have h3 : t = s.drop (m + sep.length) := by
    have := congrArg (List.drop sep.length) ht
    simp only [List.drop_left, List.drop_drop] at this
    rw [this, Nat.add_comm]
  rw [← h3, ht, List.take_append_drop]

theorem not_infix_take_of_Index {sep s : List α} (hsep : sep ≠ []) {m : Nat}
    (h : Index s sep = some m) : ¬ sep <:+: s.take m := by
  rintro ⟨a, b, hab⟩
  have h2 : 0 < sep.length := List.length_pos.2 hsep
  have hlen : a.length + sep.length + b.length = min m s.length := by
    have := congrArg List.length hab
    simp only [List.length_append, List.length_take] at this
    omega
  have hj : a.length < m := by omega
  apply (Index_some h).2 a.length hj
  refine ⟨b ++ s.drop m, ?_⟩
  have hs : s = a ++ (sep ++ (b ++ s.drop m)) := by
    conv_lhs => rw [← List.take_append_drop m s, ← hab]
    simp
  conv_rhs => rw [hs]
  simp

theorem countLoop_le (sep : List α) (fuel : Nat) (s : List α) : countLoop sep fuel s ≤ fuel := by
  induction fuel generalizing s with
  | zero => simp [countLoop]
  | succ n ih =>
    simp only [countLoop]
    split
    · omega
    · next i _ => have := ih (List.drop (i + sep.length) s); omega

/-- The bound on the rounds of `strings.Count` is never reached: any number of
rounds from the length of the string on gives the same count. -/
theorem countLoop_fuel {sep : List α} (hsep : sep ≠ []) (fuel : Nat) (s : List α)
    (h : s.length ≤ fuel) : countLoop sep fuel s = countLoop sep s.length s := by
  induction fuel using Nat.strong_induction_on generalizing s with
  | _ fuel ih =>
    have h2 : 0 < sep.length := List.length_pos.2 hsep
    cases hi : Index s sep with
    | none =>
      cases fuel <;> cases hl : s.length <;> simp [countLoop, hi]
    | some m =>
      have hb := Index_bound hsep hi
      obtain ⟨f, rfl⟩ : ∃ f, fuel = f + 1 := ⟨fuel - 1, by omega⟩
      obtain ⟨k, hk⟩ : ∃ k, s.length = k + 1 := ⟨s.length - 1, by omega⟩
      rw [hk]
      simp only [countLoop, hi]
      have hd : (s.drop (m + sep.length)).length ≤ k := by simp only [List.length_drop]; omega
      rw [ih f (by omega) _ (by omega), ih k (by omega) _ hd]

theorem Count_none {sep s : List α} (h : Index s sep = none) : Count s sep = 0 := by
  unfold Count
  cases hl : s.length <;> simp [countLoop, h]

theorem Count_some {sep s : List α} (hsep : sep ≠ []) {m : Nat} (h : Index s sep = some m) :
    Count s sep = Count (s.drop (m + sep.length)) sep + 1 := by
  have h2 : 0 < sep.length := List.length_pos.2 hsep
  have hb := Index_bound hsep h
  unfold Count
  obtain ⟨k, hk⟩ : ∃ k, s.length = k + 1 := ⟨s.length - 1, by omega⟩
  rw [hk]
  simp only [countLoop, h]
  rw [countLoop_fuel hsep k _ (by simp only [List.length_drop]; omega)]

theorem Split_eq_loop (s sep : List α) : Split s sep = genSplitLoop sep (Count s sep) s := by
  unfold Split
  have := countLoop_le sep s.length s
  have h : min (Count s sep + 1) (s.length + 1) - 1 = Count s sep := by
    unfold Count; omega
  rw [h]

theorem Split_none {sep s : List α} (h : Index s sep = none) : Split s sep = [s] := by
  rw [Split_eq_loop, Count_none h]; rfl

theorem Split_some {sep s : List α} (hsep : sep ≠ []) {m : Nat} (h : Index s sep = some m) :
    Split s sep = s.take m :: Split (s.drop (m + sep.length)) sep := by
  rw [Split_eq_loop, Count_some hsep h, Split_eq_loop]
  simp only [genSplitLoop, h]

/-- Induction along the cuts of `Split`. -/
theorem Split_induction {sep : List α} (hsep : sep ≠ []) (P : List α → Prop)
    (hnone : ∀ s, Index s sep = none → P s)
    (hsome : ∀ s m, Index s sep = some m → P (s.drop (m + sep.length)) → P s) :
    ∀ s, P s := by
  have key : ∀ n (s : List α), s.length ≤ n → P s := by
    intro n
    induction n with
    | zero =>
      intro s hs
      cases hi : Index s sep with
      | none => exact hnone s hi
      | some m =>
        have h2 : 0 < sep.length := List.length_pos.2 hsep
        have hb := Index_bound hsep hi
        omega
    | succ n ih =>
      intro s hs
      cases hi : Index s sep with
      | none => exact hnone s hi
      | some m =>
        have h2 : 0 < sep.length := List.length_pos.2 hsep
        have hb := Index_bound hsep hi
        exact hsome s m hi (ih _ (by simp only [List.length_drop]; omega))
  exact fun s => key s.length s (Nat.le_refl _)

theorem Split_ne_nil {sep : List α} (hsep : sep ≠ []) (s : List α) : Split s sep ≠ [] := by
  cases hi : Index s sep with
  | none => simp [Split_none hi]
  | some m => simp [Split_some hsep hi]

theorem Split_length {sep : List α} (hsep : sep ≠ []) (s : List α) :
    (Split s sep).length = Count s sep + 1 := by
  refine Split_induction hsep (fun s => (Split s sep).length = Count s sep + 1) ?_ ?_ s
  · intro s h; simp [Split_none h, Count_none h]
  · intro s m h ih; simp [Split_some hsep h, Count_some hsep h, ih]

theorem Split_no_sep {sep : List α} (hsep : sep ≠ []) (s : List α) :
    ∀ l ∈ Split s sep, ¬ sep <:+: l := by
  refine Split_induction hsep (fun s => ∀ l ∈ Split s sep, ¬ sep <:+: l) ?_ ?_ s
  · intro s h l hl
    simp only [Split_none h, List.mem_singleton] at hl
    subst hl
    exact not_infix_of_Index_none hsep h
  · intro s m h ih l hl
    simp only [Split_some hsep h, List.mem_cons] at hl
    rcases hl with rfl | hl
    · exact not_infix_take_of_Index hsep h
    · exact ih l hl

omit [DecidableEq α] in
theorem intercalate_cons_cons (sep a b : List α) (l : List (List α)) :
    sep.intercalate (a :: b :: l) = a ++ (sep ++ sep.intercalate (b :: l)) := by
  simp [List.intercalate, List.intersperse]

theorem Join_Split {sep : List α} (hsep : sep ≠ []) (s : List α) :
    Join (Split s sep) sep = s := by
  refine Split_induction hsep (fun s => Join (Split s sep) sep = s) ?_ ?_ s
  · intro s h; simp [Split_none h, Join, List.intercalate]
  · intro s m h ih
    simp only [Join] at ih ⊢
    rw [Split_some hsep h]
    cases hr : Split (s.drop (m + sep.length)) sep with
    | nil => exact absurd hr (Split_ne_nil hsep _)
    | cons b l =>
      rw [hr] at ih
      rw [intercalate_cons_cons, ih]
      exact (Index_split h).symm

end GoStrings

/-! ## Lemmas on rectangles, pixels and the pipeline; the claims -/

namespace watermark

open GoStrings

theorem In_iff (p : Point) (r : Rectangle) :
    p.In r = true ↔ r.Min.X ≤ p.X ∧ p.X < r.Max.X ∧ r.Min.Y ≤ p.Y ∧ p.Y < r.Max.Y := by
  simp [Point.In, and_assoc]

theorem In_Intersect (p : Point) (r s : Rectangle) :
    p.In (r.Intersect s) = true ↔ p.In r = true ∧ p.In s = true := by
  obtain ⟨⟨a, b⟩, ⟨c, d⟩⟩ := r
  obtain ⟨⟨e, f⟩, ⟨g, h⟩⟩ := s
  obtain ⟨x, y⟩ := p
  simp only [Rectangle.Intersect, Rectangle.Empty, ZP, Bool.or_eq_true, decide_eq_true_eq]
  split_ifs <;> simp only [In_iff] <;> omega

set_option maxRecDepth 100000 in
theorem overPixel_transparent_byte : ∀ v : uint8,
    toUint8 (((widen v * 0xff / 0xff * 0xffff + 0 * 0xffff) % 2 ^ 32 / 0xffff % 2 ^ 16) >>> 8) = v := by
  decide

theorem overPixel_Transparent (d : NRGBA) (h : d.A = 0xff) :
    overPixel d RGBA.Transparent = d := by
  obtain ⟨r, g, b, a⟩ := d
  simp only at h
  subst h
  have hA : (widen 255 * (65535 - widen 0 * 65535 / 65535) + widen 0 * 65535) % 2 ^ 32 /
      65535 % 2 ^ 16 = 65535 := by decide
  simp only [overPixel, RGBA.Transparent, RGBA.toRGBA64, NRGBA.toRGBA64, nrgbaModel, hA,
    if_true, NRGBA.mk.injEq, and_true]
  exact ⟨overPixel_transparent_byte r, overPixel_transparent_byte g,
    overPixel_transparent_byte b⟩

theorem In_ZR (p : Point) : p.In ⟨ZP, ZP⟩ = false := by
  cases h : p.In ⟨ZP, ZP⟩
  · rfl
  · rw [In_iff] at h; simp only [ZP] at h; omega

theorem Resize_Min (img : NRGBAImage) (w h : Int) (f : ResampleFilter) :
    (Resize img w h f).Rect.Min = ZP := by
  simp only [Resize]
  split_ifs <;> simp only [emptyNRGBA, NewNRGBA, Rect, ZP, Point.mk.injEq] <;> omega

theorem Resize_Max_X (img : NRGBAImage) (w h : Int) (f : ResampleFilter)
    (hw : 0 < w) (hh : 0 ≤ h) (hx : 0 < img.Bounds.Dx) (hy : 0 < img.Bounds.Dy) :
    (Resize img w h f).Rect.Max.X = w := by
  simp only [Resize]
  split_ifs <;> simp only [emptyNRGBA, NewNRGBA, Rect, ZP] <;> omega

theorem Resize_Solid (img : NRGBAImage) (w h : Int) (f : ResampleFilter)
    (hf : ∀ x y u v, (f img x y u v).A = 0xff) : (Resize img w h f).Solid := by
  simp only [Resize]
  split_ifs <;> intro x y hin
  all_goals first
    | exact hf _ _ _ _
    | (simp only [emptyNRGBA, NewNRGBA, In_ZR] at hin; exact absurd hin (by decide))

theorem toInt32_idem (v : Int) : toInt32 (toInt32 v) = toInt32 v := by
  simp only [toInt32]; omega

theorem toInt32_add (a b : Int) : toInt32 (toInt32 a + b) = toInt32 (a + b) := by
  simp only [toInt32]; omega

theorem toInt32_of_range (v : Int) (h1 : -2147483648 ≤ v) (h2 : v < 2147483648) :
    toInt32 v = v := by
  simp only [toInt32]; omega

theorem callsFrom_map_s (step : Int) (lines : List GoString) (pt : Point26_6) :
    (callsFrom step lines pt).map DrawCall.s = lines := by
  induction lines generalizing pt with
  | nil => rfl
  | cons s rest ih => simp [callsFrom, ih]

/-- The cursor of the `i`-th call: `i` steps down in `int32` arithmetic. -/
theorem callsFrom_getElem (step : Int) (lines : List GoString) (pt : Point26_6) (i : Nat)
    (hY : toInt32 pt.Y = pt.Y) :
    (callsFrom step lines pt)[i]? =
      (lines[i]?).map fun s => ⟨s, ⟨pt.X, toInt32 (pt.Y + i * step)⟩⟩ := by
  induction lines generalizing pt i with
  | nil => simp [callsFrom]
  | cons s rest ih =>
    cases i with
    | zero =>
      simp only [callsFrom, List.getElem?_cons_zero, Option.map_some', Nat.cast_zero, zero_mul,
        add_zero, hY]
    | succ i =>
      simp only [callsFrom, List.getElem?_cons_succ]
      rw [ih ⟨pt.X, toInt32 (pt.Y + step)⟩ i (toInt32_idem _)]
      have e : toInt32 (toInt32 (pt.Y + step) + (i : Int) * step) =
          toInt32 (pt.Y + ((i + 1 : Nat) : Int) * step) := by
        rw [toInt32_add]
        congr 1
        push_cast
        ring
      simp only [e]

/-- The calls `drawLines` makes are an initial part of `callsFrom`, all of it when
no call fails; the raster keeps its bounds; an error is a `DrawString` error
with the line added. -/
theorem drawLines_spec (env : Env) (c : Context) (lines : List GoString) (pt : Point26_6)
    (rgba : RGBAImage) (calls : List DrawCall) :
    (∃ k, (drawLines env c lines pt rgba calls).1 =
        calls ++ (callsFrom (c.PointToFixed env 18) lines pt).take k) ∧
    (∀ m, (drawLines env c lines pt rgba calls).2 = .ok m →
        m.Rect = rgba.Rect ∧
        (drawLines env c lines pt rgba calls).1 =
          calls ++ callsFrom (c.PointToFixed env 18) lines pt) ∧
    (∀ e, (drawLines env c lines pt rgba calls).2 = .error e →
        ∃ c1 s p u, env.DrawString c1 s p = .error u ∧ e = drawStringErrorf s u) := by
  induction lines generalizing pt rgba calls with
  | nil =>
    refine ⟨⟨0, by simp [drawLines, callsFrom]⟩, ?_, ?_⟩
    · intro m h
      simp only [drawLines, Except.ok.injEq] at h
      subst h
      simp [drawLines, callsFrom]
    · intro e h
      simp [drawLines] at h
  | cons s rest ih =>
    cases hd : env.DrawString ⟨c.dpi, c.f, c.fontSize, c.clipRect, rgba, c.src⟩ s pt with
    | error u =>
      refine ⟨⟨1, by simp [drawLines, hd, callsFrom]⟩, ?_, ?_⟩
      · intro m h
        simp [drawLines, hd] at h
      · intro e h
        simp only [drawLines, hd, Except.error.injEq] at h
        exact ⟨_, s, pt, u, hd, h.symm⟩
    | ok pix =>
      obtain ⟨⟨k, hk⟩, hok, herr⟩ :=
        ih ⟨pt.X, toInt32 (pt.Y + c.PointToFixed env 18)⟩ ⟨rgba.Rect, pix⟩ (calls ++ [⟨s, pt⟩])
      refine ⟨⟨k + 1, ?_⟩, ?_, ?_⟩
      · simp only [drawLines, hd, callsFrom]
        rw [hk]
        simp
      · intro m h
        simp only [drawLines, hd] at h ⊢
        obtain ⟨h1, h2⟩ := hok m h
        exact ⟨h1, by rw [h2]; simp [callsFrom]⟩
      · intro e h
        simp only [drawLines, hd] at h
        exact herr e h

/-- When no `DrawString` call fails, `drawLines` draws every line. -/
theorem drawLines_total (env : Env) (c : Context)
    (htotal : ∀ c1 s p, ∃ pix, env.DrawString c1 s p = .ok pix)
    (lines : List GoString) (pt : Point26_6) (rgba : RGBAImage) (calls : List DrawCall) :
    ∃ m, (drawLines env c lines pt rgba calls).2 = .ok m := by
  induction lines generalizing pt rgba calls with
  | nil => exact ⟨rgba, rfl⟩
  | cons s rest ih =>
    obtain ⟨pix, hp⟩ := htotal ⟨c.dpi, c.f, c.fontSize, c.clipRect, rgba, c.src⟩ s pt
    simp only [drawLines, hp]
    exact ih _ _ _

theorem drawStringImage_Rect (env : Env) (this : Watermark) (text : GoString) (width height : Int)
    (m : RGBAImage) (h : (this.drawStringImage env text width height).2 = .ok m) :
    m.Rect = Rect 0 0 width height := by
  simp only [Watermark.drawStringImage] at h
  exact ((drawLines_spec env _ _ _ _ _).2.1 m h).1

/-- The bounds of the raster a call composites, once the source is decoded: those
of the resized source. -/
theorem Watermark_dst (env : Env) (this : Watermark) (fs : FS) (srcFile dstFile text : GoString)
    (o : NRGBAImage) (hopen : env.OpenFile fs dstFile = none)
    (hdec : imagingOpen env (fs.write dstFile []) srcFile = .ok o) :
    (Watermark.Watermark env this fs srcFile dstFile text).this =
        (if this.ResizeWith = 0 then this.setResizeWith o.Bounds.Max.X else this) ∧
    ∃ d, (Watermark.Watermark env this fs srcFile dstFile text).dst = some d ∧
      d.Rect = (Resize o
        (if this.ResizeWith = 0 then this.setResizeWith o.Bounds.Max.X else this).ResizeWith
        (if this.ResizeWith = 0 then this.setResizeWith o.Bounds.Max.X else this).ResizeHeight
        env.Lanczos).Rect := by
  simp only [Watermark.Watermark, hopen, hdec]
  split
  · exact ⟨rfl, _, rfl, rfl⟩
  · exact ⟨rfl, _, rfl, rfl⟩

/-- With `ResizeWith = 0` the width a call works with is `Bounds().Max.X` of the
decoded source, whatever `Bounds().Min.X` is: it is stored in the configuration
and, for a resize height that is not negative and a non-empty source, it is the
width of the composited raster. -/
theorem Watermark_width_is_Max_X (env : Env) (this : Watermark) (fs : FS)
    (srcFile dstFile text : GoString) (o : NRGBAImage)
    (hopen : env.OpenFile fs dstFile = none)
    (hdec : imagingOpen env (fs.write dstFile []) srcFile = .ok o)
    (h0 : this.ResizeWith = 0) (hh : 0 ≤ this.ResizeHeight)
    (hX : 0 < o.Bounds.Max.X) (hW : 0 < o.Bounds.Dx) (hH : 0 < o.Bounds.Dy) :
    (Watermark.Watermark env this fs srcFile dstFile text).this =
        this.setResizeWith o.Bounds.Max.X ∧
    ∃ d, (Watermark.Watermark env this fs srcFile dstFile text).dst = some d ∧
      d.Bounds.Dx = o.Bounds.Max.X := by
  obtain ⟨ht, d, hd, hr⟩ := Watermark_dst env this fs srcFile dstFile text o hopen hdec
  rw [if_pos h0] at ht hr
  refine ⟨ht, d, hd, ?_⟩
  have hd1 : d.Bounds.Dx = d.Rect.Max.X - d.Rect.Min.X := rfl
  have h1 : (this.setResizeWith o.Bounds.Max.X).ResizeWith = o.Bounds.Max.X := rfl
  have h2 : (this.setResizeWith o.Bounds.Max.X).ResizeHeight = this.ResizeHeight := rfl
  rw [hd1, hr, Resize_Min, h1, h2, Resize_Max_X _ _ _ _ hX hh hW hH]
  simp [ZP]

/-- Claim C1 at the default configuration (`ResizeWith = 0`) and `d.gif`, which
decodes to an image 10 pixels wide with bounds `(5,5)-(15,9)`: the call
succeeds and its output raster is 15 pixels wide, not 10. -/
theorem C1_offset_source_width :
    defaultWatermark.ResizeWith = 0 ∧
    (imagingOpen exampleEnv (exampleFS.write bPng []) dGif).toOption.map
        (fun o => (o.Bounds, o.Bounds.Dx)) = some (⟨⟨5, 5⟩, ⟨15, 9⟩⟩, 10) ∧
    (Watermark.Watermark exampleEnv defaultWatermark exampleFS dGif bPng sampleText).out =
        .returned none ∧
    ((Watermark.Watermark exampleEnv defaultWatermark exampleFS dGif bPng sampleText).dst.map
        fun d => d.Bounds.Dx) = some 15 := by
  decide

/-- Claim C9 at the default configuration (`ResizeWith = 0`) and `d.gif`, which
decodes to an image of width `W1 = 10` with bounds `(5,5)-(15,9)`: after the
call the configuration holds `ResizeWith = 15`, not 10, every other field as
before, and a second call on `c.png`, of width 20, gives a raster 15 wide. -/
theorem C9_offset_source_width_sticks :
    defaultWatermark.ResizeWith = 0 ∧
    (imagingOpen exampleEnv (exampleFS.write bPng []) dGif).toOption.map
        (fun o => o.Bounds.Dx) = some 10 ∧
    (Watermark.Watermark exampleEnv defaultWatermark exampleFS dGif bPng sampleText).this =
        defaultWatermark.setResizeWith 15 ∧
    ((Watermark.Watermark exampleEnv
        (Watermark.Watermark exampleEnv defaultWatermark exampleFS dGif bPng sampleText).this
        (Watermark.Watermark exampleEnv defaultWatermark exampleFS dGif bPng sampleText).fs
        cPng bPng sampleText).dst.map fun d => d.Bounds.Dx) = some 15 := by
  decide

theorem Resize_Max_X_nonneg (img : NRGBAImage) (w h : Int) (f : ResampleFilter) :
    0 ≤ (Resize img w h f).Rect.Max.X := by
  simp only [Resize]
  split_ifs <;> simp only [emptyNRGBA, NewNRGBA, Rect, ZP] <;> omega

theorem Rect_Min_of_nonneg (w h : Int) (hw : 0 ≤ w) (hh : 0 ≤ h) : (Rect 0 0 w h).Min = ZP := by
  simp only [Rect, ZP, Point.mk.injEq]; omega

theorem Add_zero (r : Rectangle) : r.Add ⟨0, 0⟩ = r := by
  obtain ⟨⟨a, b⟩, ⟨c, d⟩⟩ := r
  simp [Rectangle.Add, Point.Add]

/-- The base layer is a verbatim copy of the resized source. -/
theorem DrawSrc_copy (origin : NRGBAImage) (hmin : origin.Rect.Min = ZP) (x y : Int)
    (hin : (Point.mk x y).In origin.Rect = true) :
    (DrawSrc (NewNRGBA origin.Bounds) (NewNRGBA origin.Bounds).Bounds origin ZP).At x y =
      origin.At x y := by
  have hclip : (Point.mk x y).In
      (clip (NewNRGBA origin.Bounds).Bounds (NewNRGBA origin.Bounds).Bounds origin.Bounds ZP) =
        true := by
    simp only [clip, In_Intersect, NewNRGBA, NRGBAImage.Bounds, hmin, Point.Sub, ZP, sub_zero,
      Add_zero, hin, and_self]
  have hR : (DrawSrc (NewNRGBA origin.Bounds) (NewNRGBA origin.Bounds).Bounds origin ZP).Rect =
      origin.Rect := rfl
  rw [NRGBAImage.At, hR, if_pos hin]
  simp only [DrawSrc, hclip, if_true]
  simp only [NewNRGBA, NRGBAImage.Bounds, hmin, ZP, sub_zero, add_zero]

/-- Alpha-over compositing at start point `(0,0)` leaves an opaque base pixel as
it is outside the overlay and under a transparent overlay pixel. -/
theorem DrawOver_frame (base : NRGBAImage) (mask : RGBAImage) (hmin : mask.Rect.Min = ZP)
    (x y : Int) (hin : (Point.mk x y).In base.Rect = true) (hA : (base.At x y).A = 0xff)
    (hcase : (Point.mk x y).In mask.Bounds = false ∨ mask.At x y = RGBA.Transparent) :
    (DrawOver base (mask.Bounds.Add ⟨0, 0⟩) mask ZP).At x y = base.At x y := by
  have hR : (DrawOver base (mask.Bounds.Add ⟨0, 0⟩) mask ZP).Rect = base.Rect := rfl
  rw [NRGBAImage.At, hR, if_pos hin]
  simp only [DrawOver, Add_zero, RGBAImage.Bounds, hmin, ZP, sub_zero, add_zero]
  split_ifs with hc
  · simp only [clip, In_Intersect, RGBAImage.Bounds, NRGBAImage.Bounds] at hc
    rcases hcase with hout | htr
    · rw [RGBAImage.Bounds, hc.1.1] at hout; cases hout
    · rw [htr]; exact overPixel_Transparent _ hA
  · rw [NRGBAImage.At, if_pos hin]

/-- Claim C2: with start point `(0,0)`, an opaque decoded source and a resampling
filter that keeps opaque images opaque, every pixel of the composited raster
that lies outside the overlay rectangle, or at which the overlay pixel is fully
transparent, equals the pixel of the resized source at the same position. -/
theorem C2_frame_of_overlay (env : Env) (this : Watermark) (fs : FS)
    (srcFile dstFile text : GoString)
    (hstart : this.WatermarkStartPoint = ⟨0, 0⟩)
    (hsrc : ∀ o, imagingOpen env (fs.write dstFile []) srcFile = .ok o → o.Solid)
    (hfilter : ∀ img w h, img.Solid → ∀ x y, (env.Lanczos img w h x y).A = 0xff)
    (origin : NRGBAImage) (mask : RGBAImage) (d : NRGBAImage)
    (ho : (Watermark.Watermark env this fs srcFile dstFile text).origin = some origin)
    (hm : (Watermark.Watermark env this fs srcFile dstFile text).mask = some mask)
    (hd : (Watermark.Watermark env this fs srcFile dstFile text).dst = some d)
    (x y : Int) (hin : (Point.mk x y).In d.Bounds = true)
    (hcase : (Point.mk x y).In mask.Bounds = false ∨ mask.At x y = RGBA.Transparent) :
    d.At x y = origin.At x y := by
  cases hopen : env.OpenFile fs dstFile with
  | some err => simp [Watermark.Watermark, hopen] at hm
  | none =>
    cases hdec : imagingOpen env (fs.write dstFile []) srcFile with
    | error u => simp [Watermark.Watermark, hopen, hdec] at hm
    | ok o =>
      have hsolid := hsrc o hdec
      simp only [Watermark.Watermark, hopen, hdec] at ho hm hd
      split at hm
      · next calls err heq => simp at hm
      · next calls mask1 heq =>
        simp only [heq, Option.some.injEq] at ho hm hd
        subst hm
        have hstart1 : (if this.ResizeWith = 0 then this.setResizeWith o.Bounds.Max.X
            else this).WatermarkStartPoint = ⟨0, 0⟩ := by
          split_ifs <;> simpa [Watermark.setResizeWith] using hstart
        rw [hstart1] at hd
        subst hd
        have horig := ho
        have hmin : origin.Rect.Min = ZP := by rw [← ho]; exact Resize_Min _ _ _ _
        have hmaxx : 0 ≤ origin.Rect.Max.X := by rw [← ho]; exact Resize_Max_X_nonneg _ _ _ _
        have hso : origin.Solid := by
          rw [← ho]; exact Resize_Solid _ _ _ _ (fun x y u v => hfilter o x y hsolid u v)
        have hmr : mask1.Rect = Rect 0 0 origin.Bounds.Max.X (defaultFontSize + 1) := by
          have := drawStringImage_Rect env _ text _ _ mask1 (by rw [heq])
          rw [this, ho]
        have hmmin : mask1.Rect.Min = ZP := by
          rw [hmr]; exact Rect_Min_of_nonneg _ _ hmaxx (by decide)
        rw [ho] at hin ⊢
        have hin1 : (Point.mk x y).In origin.Rect = true := hin
        have hbase := DrawSrc_copy origin hmin x y hin1
        have hA : ((DrawSrc (NewNRGBA origin.Bounds) (NewNRGBA origin.Bounds).Bounds origin
            ZP).At x y).A = 0xff := by
          rw [hbase, NRGBAImage.At, if_pos hin1]
          exact hso x y hin1
        rw [DrawOver_frame (DrawSrc (NewNRGBA origin.Bounds) (NewNRGBA origin.Bounds).Bounds
          origin ZP) mask1 hmmin x y hin1 hA hcase, hbase]

/-- The theorem `C2_frame_of_overlay` at the default configuration, `a.png` and the
pixel `(0,0)`, where the overlay is transparent. -/
theorem C2_witness : exampleComposite.At 0 0 = exampleOrigin.At 0 0 :=
  C2_frame_of_overlay exampleEnv defaultWatermark exampleFS aPng bPng sampleText rfl
    (fun o h => by
      have h1 : o = exampleImage 10 4 := by
        have h2 : imagingOpen exampleEnv (exampleFS.write bPng []) aPng =
            .ok (exampleImage 10 4) := rfl
        rw [h2] at h
        exact (Except.ok.inj h).symm
      subst h1
      intro x y _
      rfl)
    (fun _ _ _ _ _ _ => rfl)
    exampleOrigin exampleMask exampleComposite rfl rfl rfl 0 0 (by decide) (Or.inr rfl)

theorem decodeErrorf_ne (u : GoError) : decodeErrorf u ≠ u := by
  intro h
  have := congrArg (fun e => e.msg.length) h
  simp [decodeErrorf] at this
  omega

theorem decodeErrorf_drawStringErrorf_ne (s : GoString) (u : GoError) :
    decodeErrorf (drawStringErrorf s u) ≠ u := by
  intro h
  have := congrArg (fun e => e.msg.length) h
  simp [decodeErrorf, drawStringErrorf] at this
  omega

/-- Claim C5, as amended: when the destination opens, an error the call returns is
either the decode error wrapped as `image decode error(...)`, or the error of a
`DrawString` call wrapped twice, with the line and as `image decode error(...)`,
both different from the underlying error, or the error of `imaging.Save` itself,
returned as it is. -/
theorem C5_errors (env : Env) (this : Watermark) (fs : FS) (srcFile dstFile text : GoString)
    (e : GoError) (hopen : env.OpenFile fs dstFile = none)
    (hret : (Watermark.Watermark env this fs srcFile dstFile text).out = .returned (some e)) :
    (∃ u, imagingOpen env (fs.write dstFile []) srcFile = .error u ∧
        e = decodeErrorf u ∧ e ≠ u) ∨
    (∃ c s pt u, env.DrawString c s pt = .error u ∧
        e = decodeErrorf (drawStringErrorf s u) ∧ e ≠ u) ∨
    (∃ d, (Watermark.Watermark env this fs srcFile dstFile text).dst = some d ∧
        (env.Save d dstFile).2 = some e) := by
  cases hdec : imagingOpen env (fs.write dstFile []) srcFile with
  | error u =>
    left
    simp only [Watermark.Watermark, hopen, hdec, Outcome.returned.injEq, Option.some.injEq] at hret
    exact ⟨u, rfl, hret.symm, hret ▸ decodeErrorf_ne u⟩
  | ok o =>
    right
    simp only [Watermark.Watermark, hopen, hdec] at hret ⊢
    split at hret
    · next calls err heq =>
      left
      simp only [Outcome.returned.injEq, Option.some.injEq] at hret
      have herr : (Watermark.drawStringImage env
          (if this.ResizeWith = 0 then this.setResizeWith o.Bounds.Max.X else this) text
          (Resize o (if this.ResizeWith = 0 then this.setResizeWith o.Bounds.Max.X
            else this).ResizeWith (if this.ResizeWith = 0 then
            this.setResizeWith o.Bounds.Max.X else this).ResizeHeight env.Lanczos).Bounds.Max.X
          (defaultFontSize + 1)).2 = .error err := by rw [heq]
      simp only [Watermark.drawStringImage] at herr
      obtain ⟨c, s, pt, u, hu, he⟩ := (drawLines_spec env _ _ _ _ _).2.2 err herr
      subst he
      exact ⟨c, s, pt, u, hu, hret.symm, hret ▸ decodeErrorf_drawStringErrorf_ne s u⟩
    · next calls mask heq =>
      right
      simp only [Outcome.returned.injEq] at hret
      exact ⟨_, rfl, hret⟩

/-- The theorem `C5_errors` at a source path at which there is no file. -/
theorem C5_witness :
    (∃ u, imagingOpen exampleEnv (exampleFS.write bPng []) missingPng = .error u ∧
        decodeErrorf (exampleEnv.notExist missingPng) = decodeErrorf u ∧
        decodeErrorf (exampleEnv.notExist missingPng) ≠ u) ∨
    (∃ c s pt u, exampleEnv.DrawString c s pt = .error u ∧
        decodeErrorf (exampleEnv.notExist missingPng) = decodeErrorf (drawStringErrorf s u) ∧
        decodeErrorf (exampleEnv.notExist missingPng) ≠ u) ∨
    (∃ d, (Watermark.Watermark exampleEnv defaultWatermark exampleFS missingPng bPng
        sampleText).dst = some d ∧
        (exampleEnv.Save d bPng).2 = some (decodeErrorf (exampleEnv.notExist missingPng))) :=
  C5_errors exampleEnv defaultWatermark exampleFS missingPng bPng sampleText
    (decodeErrorf (exampleEnv.notExist missingPng)) rfl rfl

/-- Claim C5 fails as stated: when saving fails with the error `disk full`, the
call returns exactly that error, without any added context. -/
theorem C5_save_error_unchanged :
    saveFailEnv.OpenFile exampleFS bPng = none ∧
    ((Watermark.Watermark saveFailEnv defaultWatermark exampleFS aPng bPng sampleText).dst.map
      fun d => (saveFailEnv.Save d bPng).2) = some (some ⟨"disk full".toList⟩) ∧
    (Watermark.Watermark saveFailEnv defaultWatermark exampleFS aPng bPng sampleText).out =
      .returned (some ⟨"disk full".toList⟩) := by
  decide

/-- Claim C6: after `SetWatermarkStartPoint(X, Y)` the start point is `(X, Y)`, for
all integers `X` and `Y`, and every other field of the configuration is as before. -/
theorem C6_SetWatermarkStartPoint (this : Watermark) (X Y : Int) :
    (this.SetWatermarkStartPoint X Y).WatermarkStartPoint = ⟨X, Y⟩ ∧
    (this.SetWatermarkStartPoint X Y).FontGrayscaleColor = this.FontGrayscaleColor ∧
    (this.SetWatermarkStartPoint X Y).FontSize = this.FontSize ∧
    (this.SetWatermarkStartPoint X Y).Dpi = this.Dpi ∧
    (this.SetWatermarkStartPoint X Y).FontAdress = this.FontAdress ∧
    (this.SetWatermarkStartPoint X Y).font = this.font ∧
    (this.SetWatermarkStartPoint X Y).ResizeWith = this.ResizeWith ∧
    (this.SetWatermarkStartPoint X Y).ResizeHeight = this.ResizeHeight :=
  ⟨rfl, rfl, rfl, rfl, rfl, rfl, rfl, rfl⟩

/-- Claim C8: whenever the destination opens and opening or decoding the source
fails, the call returns the wrapped decode error and the destination file exists
with empty content afterwards, whatever it held before. Hence, when decoding an
empty file fails, a call with the same path `p` as source and destination
returns a decode error and leaves `p` empty. -/
theorem C8_destination_truncated (env : Env) (this : Watermark) (fs : FS) (text : GoString) :
    (∀ srcFile dstFile u, env.OpenFile fs dstFile = none →
      imagingOpen env (fs.write dstFile []) srcFile = .error u →
      (Watermark.Watermark env this fs srcFile dstFile text).out =
          .returned (some (decodeErrorf u)) ∧
        (Watermark.Watermark env this fs srcFile dstFile text).fs.files dstFile = some []) ∧
    (∀ p u, env.OpenFile fs p = none → env.Decode [] = .error u →
      (Watermark.Watermark env this fs p p text).out = .returned (some (decodeErrorf u)) ∧
        (Watermark.Watermark env this fs p p text).fs.files p = some []) := by
  have key : ∀ srcFile dstFile u, env.OpenFile fs dstFile = none →
      imagingOpen env (fs.write dstFile []) srcFile = .error u →
      (Watermark.Watermark env this fs srcFile dstFile text).out =
          .returned (some (decodeErrorf u)) ∧
        (Watermark.Watermark env this fs srcFile dstFile text).fs.files dstFile = some [] := by
    intro srcFile dstFile u hopen hdec
    simp only [Watermark.Watermark, hopen, hdec]
    simp only [FS.write, if_true, and_self]
  refine ⟨key, fun p u hopen hd => key p p u hopen ?_⟩
  simp only [imagingOpen, FS.write, if_true, hd]

/-- The theorem `C8_destination_truncated` at a missing source, and at `a.png` as
both source and destination. -/
theorem C8_witness :
    ((Watermark.Watermark exampleEnv defaultWatermark exampleFS missingPng bPng sampleText).out =
        .returned (some (decodeErrorf (exampleEnv.notExist missingPng))) ∧
      (Watermark.Watermark exampleEnv defaultWatermark exampleFS missingPng bPng
        sampleText).fs.files bPng = some []) ∧
    ((Watermark.Watermark exampleEnv defaultWatermark exampleFS aPng aPng sampleText).out =
        .returned (some (decodeErrorf ⟨"image: unknown format".toList⟩)) ∧
      (Watermark.Watermark exampleEnv defaultWatermark exampleFS aPng aPng
        sampleText).fs.files aPng = some []) :=
  ⟨(C8_destination_truncated exampleEnv defaultWatermark exampleFS sampleText).1
      missingPng bPng _ rfl rfl,
   (C8_destination_truncated exampleEnv defaultWatermark exampleFS sampleText).2
      aPng _ rfl rfl⟩

theorem crlf_ne_nil : crlf ≠ [] := by decide

/-- Claim C3: a successful `drawStringImage` makes one `DrawString` call per
element of `strings.Split(text, "\r\n")`, in order: their number is the number of
non-overlapping occurrences of the separator plus one, no drawn line contains
the separator, joining the drawn lines with the separator gives back the text,
and a text without the separator is drawn as one line, the whole text. -/
theorem C3_lines_split_on_crlf (env : Env) (this : Watermark) (text : GoString)
    (width height : Int) (calls : List DrawCall) (mask : RGBAImage)
    (h : this.drawStringImage env text width height = (calls, .ok mask)) :
    calls.map DrawCall.s = Split text crlf ∧
    calls.length = Count text crlf + 1 ∧
    (∀ c ∈ calls, ¬ crlf <:+: c.s) ∧
    Join (calls.map DrawCall.s) crlf = text ∧
    (¬ crlf <:+: text → calls.map DrawCall.s = [text]) := by
  have h2 : (this.drawStringImage env text width height).2 = .ok mask := by rw [h]
  have h1 : (this.drawStringImage env text width height).1 = calls := by rw [h]
  simp only [Watermark.drawStringImage] at h1 h2
  have hc := ((drawLines_spec env _ _ _ _ _).2.1 mask h2).2
  rw [h1, List.nil_append] at hc
  have hs : calls.map DrawCall.s = Split text crlf := by rw [hc, callsFrom_map_s]
  refine ⟨hs, ?_, ?_, ?_, ?_⟩
  · rw [← Split_length crlf_ne_nil, ← hs, List.length_map]
  · intro c hcm
    exact Split_no_sep crlf_ne_nil text c.s (hs ▸ List.mem_map_of_mem DrawCall.s hcm)
  · rw [hs]; exact Join_Split crlf_ne_nil text
  · intro hn
    rw [hs]; exact Split_none (Index_none_of_absent hn)

/-- The theorem `C3_lines_split_on_crlf` at a text whose only line break is a bare
line feed: one line, the whole text. -/
theorem C3_witness :
    (defaultWatermark.drawStringImage exampleEnv lfText 10 15).1.map DrawCall.s = [lfText] :=
  (C3_lines_split_on_crlf exampleEnv defaultWatermark lfText 10 15
    (defaultWatermark.drawStringImage exampleEnv lfText 10 15).1 exampleMask rfl).2.2.2.2
    (by decide)

/-- Claim C4 at a configuration with font size 20: the overlay is as wide as the
resized source (10) but 15 pixels high, which is the default font size plus 1
and not the configured font size plus 1. -/
theorem C4_overlay_height_ignores_font_size :
    bigFontWatermark.FontSize = 20 ∧
    ((Watermark.Watermark exampleEnv bigFontWatermark exampleFS aPng bPng sampleText).mask.map
      fun m => (m.Bounds.Dx, m.Bounds.Dy)) = some (10, 15) ∧
    ((Watermark.Watermark exampleEnv bigFontWatermark exampleFS aPng bPng sampleText).dst.map
      fun d => d.Bounds.Dx) = some 10 ∧
    (15 : Int) ≠ bigFontWatermark.FontSize + 1 := by
  decide

/-- Claim C7 at the default configuration (72 DPI): the cursor of the first line is at
`(10, 13)`, that is 3 pixels below the 10-pixel inset, not at `(10, 22)`, which
is 12 pixels below it. -/
theorem C7_first_cursor :
    (defaultWatermark.drawStringImage exampleEnv sampleText 800 15).1 =
      [⟨sampleText, freetypePt 10 13⟩] ∧
    freetypePt 10 13 ≠ freetypePt 10 (10 + 12) := by
  decide

theorem PointToFixed_12 (env : Env) (c : Context) (h : c.dpi = 72) :
    c.PointToFixed env 12 = 768 := by
  have e : Int.tdiv (12 * 72 * 64) 72 = 768 := by decide
  simp only [Context.PointToFixed, h, e]
  exact if_pos (by decide)

theorem PointToFixed_18 (env : Env) (c : Context) (h : c.dpi = 72) :
    c.PointToFixed env 18 = 1152 := by
  have e : Int.tdiv (18 * 72 * 64) 72 = 1152 := by decide
  simp only [Context.PointToFixed, h, e]
  exact if_pos (by decide)

/-- At 72 DPI the calls of `drawStringImage` are an initial part of the calls
from the cursor `(10, 13)` down in steps of 18 pixels, all of them when the
rendering succeeds. -/
theorem drawStringImage_72 (env : Env) (this : Watermark) (text : GoString)
    (width height : Int) (hdpi : this.Dpi = 72) :
    (∃ k, (this.drawStringImage env text width height).1 =
        (callsFrom 1152 (Split text crlf) ⟨640, 832⟩).take k) ∧
    (∀ m, (this.drawStringImage env text width height).2 = .ok m →
        (this.drawStringImage env text width height).1 =
          callsFrom 1152 (Split text crlf) ⟨640, 832⟩) := by
  have h12 := PointToFixed_12 env ⟨this.Dpi, this.font, this.FontSize,
    (NewRGBA (Rect 0 0 width height)).Bounds, NewRGBA (Rect 0 0 width height),
    this.FontGrayscaleColor⟩ hdpi
  have h18 := PointToFixed_18 env ⟨this.Dpi, this.font, this.FontSize,
    (NewRGBA (Rect 0 0 width height)).Bounds, NewRGBA (Rect 0 0 width height),
    this.FontGrayscaleColor⟩ hdpi
  have hpt : freetypePt 10 ((10 : Int) + ((768 : Int) >>> 8)) = ⟨640, 832⟩ := by decide
  have hspec := drawLines_spec env ⟨this.Dpi, this.font, this.FontSize,
    (NewRGBA (Rect 0 0 width height)).Bounds, NewRGBA (Rect 0 0 width height),
    this.FontGrayscaleColor⟩ (Split text crlf) ⟨640, 832⟩ (NewRGBA (Rect 0 0 width height)) []
  rw [h18] at hspec
  simp only [Watermark.drawStringImage, h12, hpt]
  obtain ⟨⟨k, hk⟩, hok, _⟩ := hspec
  refine ⟨⟨k, by rw [hk, List.nil_append]⟩, fun m hm => ?_⟩
  rw [(hok m hm).2, List.nil_append]

/-- The cursor of the `i`-th call at 72 DPI. -/
theorem drawStringImage_cursor (env : Env) (this : Watermark) (text : GoString)
    (width height : Int) (hdpi : this.Dpi = 72) (i : Nat) (c : DrawCall) (cs : List DrawCall)
    (hcs : (this.drawStringImage env text width height).1 = cs) (hc : cs[i]? = some c) :
    c.pt = ⟨640, toInt32 (832 + i * 1152)⟩ := by
  subst hcs
  obtain ⟨k, hk⟩ := (drawStringImage_72 env this text width height hdpi).1
  rw [hk, List.getElem?_take] at hc
  split_ifs at hc with hik
  rw [callsFrom_getElem 1152 _ ⟨640, 832⟩ i (by decide)] at hc
  cases hl : (Split text crlf)[i]? with
  | none => rw [hl] at hc; cases hc
  | some s =>
    rw [hl] at hc
    simp only [Option.map_some', Option.some.injEq] at hc
    rw [← hc]

/-- The calls a run makes are those of `drawStringImage` on the configuration
as the call leaves it. -/
theorem Watermark_calls (env : Env) (this : Watermark) (fs : FS)
    (srcFile dstFile text : GoString) (o : NRGBAImage)
    (hopen : env.OpenFile fs dstFile = none)
    (hdec : imagingOpen env (fs.write dstFile []) srcFile = .ok o) :
    (Watermark.Watermark env this fs srcFile dstFile text).calls =
      (Watermark.drawStringImage env
        (if this.ResizeWith = 0 then this.setResizeWith o.Bounds.Max.X else this) text
        (Resize o (if this.ResizeWith = 0 then this.setResizeWith o.Bounds.Max.X
          else this).ResizeWith (if this.ResizeWith = 0 then this.setResizeWith o.Bounds.Max.X
          else this).ResizeHeight env.Lanczos).Bounds.Max.X (defaultFontSize + 1)).1 ∧
    (Watermark.Watermark env this fs srcFile dstFile text).mask =
      (Watermark.drawStringImage env
        (if this.ResizeWith = 0 then this.setResizeWith o.Bounds.Max.X else this) text
        (Resize o (if this.ResizeWith = 0 then this.setResizeWith o.Bounds.Max.X
          else this).ResizeWith (if this.ResizeWith = 0 then this.setResizeWith o.Bounds.Max.X
          else this).ResizeHeight env.Lanczos).Bounds.Max.X (defaultFontSize + 1)).2.toOption := by
  simp only [Watermark.Watermark, hopen, hdec]
  split
  · next calls err heq => rw [heq]; exact ⟨rfl, rfl⟩
  · next calls mask heq => rw [heq]; exact ⟨rfl, rfl⟩

/-- Lines whose em box lies at or below the bottom edge of the clip rectangle
leave the raster as it is, when the rasteriser changes no pixel outside the clip
rectangle or above the em box of the line it draws. -/
theorem drawLines_below (env : Env) (c : Context)
    (hraster : ∀ c1 s p pix, env.DrawString c1 s p = .ok pix → ∀ x y,
      ((Point.mk x y).In c1.clipRect = false ∨ y < p.Y / 64 - c1.emPixels) →
        pix x y = c1.dst.Pix x y)
    (lines : List GoString) (pt : Point26_6) (rgba : RGBAImage) (calls : List DrawCall)
    (hY : toInt32 pt.Y = pt.Y)
    (hbelow : ∀ j : Nat, j < lines.length →
      c.clipRect.Max.Y ≤ toInt32 (pt.Y + j * c.PointToFixed env 18) / 64 - c.emPixels)
    (m : RGBAImage) (h : (drawLines env c lines pt rgba calls).2 = .ok m) : m = rgba := by
  induction lines generalizing pt rgba calls with
  | nil =>
    simp only [drawLines, Except.ok.injEq] at h
    exact h.symm
  | cons s rest ih =>
    cases hd : env.DrawString ⟨c.dpi, c.f, c.fontSize, c.clipRect, rgba, c.src⟩ s pt with
    | error u => simp [drawLines, hd] at h
    | ok pix =>
      simp only [drawLines, hd] at h
      have h0 := hbelow 0 (by simp)
      simp only [Nat.cast_zero, zero_mul, add_zero, hY] at h0
      have hpix : pix = rgba.Pix := by
        funext x y
        refine hraster _ s pt pix hd x y ?_
        cases hin : (Point.mk x y).In c.clipRect with
        | false => exact Or.inl rfl
        | true =>
          right
          rw [In_iff] at hin
          have hy : y < c.clipRect.Max.Y := hin.2.2.2
          have hem : (Context.mk c.dpi c.f c.fontSize c.clipRect rgba c.src).emPixels =
              c.emPixels := rfl
          rw [hem]
          omega
      subst hpix
      refine ih ⟨pt.X, toInt32 (pt.Y + c.PointToFixed env 18)⟩ ⟨rgba.Rect, rgba.Pix⟩ _
        (toInt32_idem _) (fun j hj => ?_) h
      have hj1 := hbelow (j + 1) (by simp only [List.length_cons]; omega)
      have e : toInt32 (toInt32 (pt.Y + c.PointToFixed env 18) + (j : Int) *
          c.PointToFixed env 18) = toInt32 (pt.Y + ((j + 1 : Nat) : Int) *
          c.PointToFixed env 18) := by
        rw [toInt32_add]; congr 1; push_cast; ring
      rw [e]
      exact hj1

/-- With font size 14 at 72 DPI, at most 1864135 lines and a rasteriser that
keeps to the clip rectangle and the em box, the overlay of a text is the overlay
of its first line. -/
theorem drawStringImage_first_line (env : Env) (this : Watermark) (text : GoString)
    (width : Int) (hsize : this.FontSize = 14) (hdpi : this.Dpi = 72)
    (hraster : ∀ c1 s p pix, env.DrawString c1 s p = .ok pix → ∀ x y,
      ((Point.mk x y).In c1.clipRect = false ∨ y < p.Y / 64 - c1.emPixels) →
        pix x y = c1.dst.Pix x y)
    (hlines : (Split text crlf).length ≤ 1864135) (m : RGBAImage)
    (h : (this.drawStringImage env text width 15).2 = .ok m) :
    (this.drawStringImage env ((Split text crlf).headD []) width 15).2 = .ok m := by
  have h12 := PointToFixed_12 env ⟨this.Dpi, this.font, this.FontSize,
    (NewRGBA (Rect 0 0 width 15)).Bounds, NewRGBA (Rect 0 0 width 15),
    this.FontGrayscaleColor⟩ hdpi
  have h18 := PointToFixed_18 env ⟨this.Dpi, this.font, this.FontSize,
    (NewRGBA (Rect 0 0 width 15)).Bounds, NewRGBA (Rect 0 0 width 15),
    this.FontGrayscaleColor⟩ hdpi
  have hpt : freetypePt 10 ((10 : Int) + ((768 : Int) >>> 8)) = ⟨640, 832⟩ := by decide
  cases hs : Split text crlf with
  | nil => exact absurd hs (Split_ne_nil crlf_ne_nil text)
  | cons l0 rest =>
    have hl0 : Split l0 crlf = [l0] := by
      refine Split_none (Index_none_of_absent ?_)
      exact Split_no_sep crlf_ne_nil text l0 (by rw [hs]; exact List.mem_cons_self _ _)
    rw [hs] at hlines
    simp only [Watermark.drawStringImage, h12, hpt, hs, hl0, List.headD_cons] at h ⊢
    cases hd : env.DrawString ⟨this.Dpi, this.font, this.FontSize,
        (NewRGBA (Rect 0 0 width 15)).Bounds, NewRGBA (Rect 0 0 width 15),
        this.FontGrayscaleColor⟩ l0 ⟨640, 832⟩ with
    | error u => simp [drawLines, hd] at h
    | ok pix =>
      simp only [drawLines, hd] at h ⊢
      rw [h18] at h
      have hm := drawLines_below env ⟨this.Dpi, this.font, this.FontSize,
        (NewRGBA (Rect 0 0 width 15)).Bounds, NewRGBA (Rect 0 0 width 15),
        this.FontGrayscaleColor⟩ hraster rest ⟨640, toInt32 (832 + 1152)⟩
        ⟨(NewRGBA (Rect 0 0 width 15)).Rect, pix⟩ _ (toInt32_idem _) (fun j hj => ?_) m h
      · rw [hm]
      · have e0 : toInt32 (832 + 1152) = 1984 := by decide
        rw [h18, e0]
        simp only [Context.emPixels, hsize, hdpi, NewRGBA, RGBAImage.Bounds, Rect]
        simp only [List.length_cons] at hlines
        rw [toInt32_of_range _ (by omega) (by omega)]
        omega

theorem toOption_eq_some {ε α : Type} (e : Except ε α) (a : α) (h : e.toOption = some a) :
    e = .ok a := by
  cases e with
  | error u => simp [Except.toOption] at h
  | ok b => simp only [Except.toOption, Option.some.injEq] at h; rw [h]

/-- A run that drew a line or built an overlay opened the destination and decoded
the source. -/
theorem Watermark_decoded (env : Env) (this : Watermark) (fs : FS)
    (srcFile dstFile text : GoString)
    (h : (Watermark.Watermark env this fs srcFile dstFile text).calls ≠ [] ∨
      (Watermark.Watermark env this fs srcFile dstFile text).mask ≠ none) :
    env.OpenFile fs dstFile = none ∧
      ∃ o, imagingOpen env (fs.write dstFile []) srcFile = .ok o := by
  cases hopen : env.OpenFile fs dstFile with
  | some err => simp [Watermark.Watermark, hopen] at h
  | none =>
    cases hdec : imagingOpen env (fs.write dstFile []) srcFile with
    | error u => simp [Watermark.Watermark, hopen, hdec] at h
    | ok o => exact ⟨rfl, o, rfl⟩

/-- The raster a run composites under the overlay `m`. -/
theorem Watermark_dst_of_mask (env : Env) (this : Watermark) (fs : FS)
    (srcFile dstFile text : GoString) (o : NRGBAImage) (m : RGBAImage)
    (hopen : env.OpenFile fs dstFile = none)
    (hdec : imagingOpen env (fs.write dstFile []) srcFile = .ok o)
    (hm : (Watermark.Watermark env this fs srcFile dstFile text).mask = some m) :
    (Watermark.Watermark env this fs srcFile dstFile text).dst =
      some (DrawOver
        (DrawSrc (NewNRGBA (Resize o
            (if this.ResizeWith = 0 then this.setResizeWith o.Bounds.Max.X else this).ResizeWith
            (if this.ResizeWith = 0 then this.setResizeWith o.Bounds.Max.X else this).ResizeHeight
            env.Lanczos).Bounds)
          (NewNRGBA (Resize o
            (if this.ResizeWith = 0 then this.setResizeWith o.Bounds.Max.X else this).ResizeWith
            (if this.ResizeWith = 0 then this.setResizeWith o.Bounds.Max.X else this).ResizeHeight
            env.Lanczos).Bounds).Bounds
          (Resize o
            (if this.ResizeWith = 0 then this.setResizeWith o.Bounds.Max.X else this).ResizeWith
            (if this.ResizeWith = 0 then this.setResizeWith o.Bounds.Max.X else this).ResizeHeight
            env.Lanczos) ZP)
        (m.Bounds.Add (if this.ResizeWith = 0 then this.setResizeWith o.Bounds.Max.X
          else this).WatermarkStartPoint) m ZP) := by
  simp only [Watermark.Watermark, hopen, hdec] at hm ⊢
  split at hm
  · next calls err heq => simp at hm
  · next calls mask heq =>
    simp only [Option.some.injEq] at hm
    subst hm
    rfl

/-- Claim C10, as amended: with font size 14 and 72 DPI, the cursor of the `i`-th
line drawn, for `i` up to 1864134, is at `(10, 13 + 18 * i)` pixels, and for
`1 ≤ i` its baseline minus the font size is at least 15, so that no position from
the top of its em box downwards lies inside the overlay; the overlay spans the
rows 0 to 15; and when the text has at most 1864135 lines and the rasteriser
changes no pixel outside the clip rectangle or above the em box of the line it
draws, the overlay and the composited raster are those of the first line alone. -/
theorem C10_later_lines_below_overlay (env : Env) (this : Watermark) (fs : FS)
    (srcFile dstFile text : GoString) (hsize : this.FontSize = defaultFontSize)
    (hdpi : this.Dpi = defaultDpi) :
    (∀ (i : Nat) (c : DrawCall), i ≤ 1864134 →
      (Watermark.Watermark env this fs srcFile dstFile text).calls[i]? = some c →
      c.pt = ⟨10 * 64, (13 + 18 * (i : Int)) * 64⟩ ∧
      (1 ≤ i → 15 ≤ c.pt.Y / 64 - this.FontSize ∧
        ∀ m, (Watermark.Watermark env this fs srcFile dstFile text).mask = some m →
          ∀ x y : Int, c.pt.Y / 64 - this.FontSize ≤ y → (Point.mk x y).In m.Bounds = false)) ∧
    (∀ m, (Watermark.Watermark env this fs srcFile dstFile text).mask = some m →
      m.Bounds.Min.Y = 0 ∧ m.Bounds.Max.Y = 15) ∧
    ((∀ c1 s p pix, env.DrawString c1 s p = .ok pix → ∀ x y,
        ((Point.mk x y).In c1.clipRect = false ∨ y < p.Y / 64 - c1.emPixels) →
          pix x y = c1.dst.Pix x y) →
      (Split text crlf).length ≤ 1864135 →
      ∀ m, (Watermark.Watermark env this fs srcFile dstFile text).mask = some m →
        (Watermark.Watermark env this fs srcFile dstFile ((Split text crlf).headD [])).mask =
            some m ∧
          (Watermark.Watermark env this fs srcFile dstFile ((Split text crlf).headD [])).dst =
            (Watermark.Watermark env this fs srcFile dstFile text).dst) := by
  have hrows : ∀ m, (Watermark.Watermark env this fs srcFile dstFile text).mask = some m →
      m.Bounds.Min.Y = 0 ∧ m.Bounds.Max.Y = 15 := by
    intro m hm
    obtain ⟨hopen, o, hdec⟩ := Watermark_decoded env this fs srcFile dstFile text
      (Or.inr (by rw [hm]; simp))
    rw [(Watermark_calls env this fs srcFile dstFile text o hopen hdec).2] at hm
    have hr := drawStringImage_Rect env _ text _ _ m (toOption_eq_some _ _ hm)
    rw [RGBAImage.Bounds, hr]
    simp only [Rect, defaultFontSize]
    omega
  refine ⟨?_, hrows, ?_⟩
  · intro i c hi hc
    obtain ⟨hopen, o, hdec⟩ := Watermark_decoded env this fs srcFile dstFile text
      (Or.inl (by intro h; rw [h] at hc; simp at hc))
    have hd1 : (if this.ResizeWith = 0 then this.setResizeWith o.Bounds.Max.X
        else this).Dpi = 72 := by
      split_ifs <;> simpa [Watermark.setResizeWith] using hdpi
    have hpt := drawStringImage_cursor env _ text _ _ hd1 i c _
      (Watermark_calls env this fs srcFile dstFile text o hopen hdec).1.symm hc
    rw [toInt32_of_range _ (by omega) (by omega)] at hpt
    have hY : c.pt.Y = 832 + (i : Int) * 1152 := by rw [hpt]
    refine ⟨by rw [hpt, Point26_6.mk.injEq]; constructor <;> ring, fun h1 => ?_⟩
    rw [hsize, hY]
    simp only [defaultFontSize]
    refine ⟨by omega, fun m hm x y hy => ?_⟩
    have h15 := (hrows m hm).2
    cases hin : (Point.mk x y).In m.Bounds with
    | false => rfl
    | true =>
      rw [In_iff] at hin
      have hy2 : y < m.Bounds.Max.Y := hin.2.2.2
      omega
  · intro hraster hlines m hm
    obtain ⟨hopen, o, hdec⟩ := Watermark_decoded env this fs srcFile dstFile text
      (Or.inr (by rw [hm]; simp))
    have hd1 : (if this.ResizeWith = 0 then this.setResizeWith o.Bounds.Max.X
        else this).Dpi = 72 := by
      split_ifs <;> simpa [Watermark.setResizeWith] using hdpi
    have hs1 : (if this.ResizeWith = 0 then this.setResizeWith o.Bounds.Max.X
        else this).FontSize = 14 := by
      split_ifs <;> simpa [Watermark.setResizeWith] using hsize
    have hm1 := hm
    rw [(Watermark_calls env this fs srcFile dstFile text o hopen hdec).2] at hm1
    have h15 : defaultFontSize + 1 = 15 := by decide
    rw [h15] at hm1
    have hfirst := drawStringImage_first_line env _ text _ hs1 hd1 hraster hlines m
      (toOption_eq_some _ _ hm1)
    have hm0 : (Watermark.Watermark env this fs srcFile dstFile
        ((Split text crlf).headD [])).mask = some m := by
      rw [(Watermark_calls env this fs srcFile dstFile _ o hopen hdec).2, h15, hfirst]
      rfl
    refine ⟨hm0, ?_⟩
    rw [Watermark_dst_of_mask env this fs srcFile dstFile _ o m hopen hdec hm0,
      Watermark_dst_of_mask env this fs srcFile dstFile _ o m hopen hdec hm]

theorem Index_a_crlf (rest : GoString) : Index ('a' :: (crlf ++ rest)) crlf = some 1 := by
  simp [Index, startsWith, crlf]

theorem Split_aLines (n : Nat) : Split (aLines n) crlf = List.replicate n ['a'] ++ [['a']] := by
  induction n with
  | zero =>
    have h : Index (aLines 0) crlf = none := by decide
    rw [Split_none h]
    rfl
  | succ n ih =>
    have e : aLines (n + 1) = 'a' :: (crlf ++ aLines n) := by
      simp [aLines, List.replicate_succ]
    rw [e, Split_some crlf_ne_nil (Index_a_crlf (aLines n))]
    have e2 : List.drop (1 + crlf.length) ('a' :: (crlf ++ aLines n)) = aLines n := by
      simp [crlf]
    rw [e2, ih, List.replicate_succ]
    rfl

/-- The last line of a successful `drawLines` is drawn by a `DrawString` call at
the cursor that many steps down, and its result is the raster returned. -/
theorem drawLines_last (env : Env) (c : Context) (init : List GoString) (s : GoString)
    (pt : Point26_6) (rgba : RGBAImage) (calls : List DrawCall) (m : RGBAImage)
    (hY : toInt32 pt.Y = pt.Y)
    (h : (drawLines env c (init ++ [s]) pt rgba calls).2 = .ok m) :
    ∃ rgba1, rgba1.Rect = rgba.Rect ∧ m.Rect = rgba.Rect ∧
      env.DrawString ⟨c.dpi, c.f, c.fontSize, c.clipRect, rgba1, c.src⟩ s
        ⟨pt.X, toInt32 (pt.Y + init.length * c.PointToFixed env 18)⟩ = .ok m.Pix := by
  induction init generalizing pt rgba calls with
  | nil =>
    simp only [List.nil_append, drawLines] at h
    cases hd : env.DrawString ⟨c.dpi, c.f, c.fontSize, c.clipRect, rgba, c.src⟩ s pt with
    | error u => simp [hd] at h
    | ok pix =>
      simp only [hd, drawLines, Except.ok.injEq] at h
      subst h
      refine ⟨rgba, rfl, rfl, ?_⟩
      simp only [List.length_nil, Nat.cast_zero, zero_mul, add_zero, hY]
      exact hd
  | cons l rest ih =>
    simp only [List.cons_append, drawLines] at h
    cases hd : env.DrawString ⟨c.dpi, c.f, c.fontSize, c.clipRect, rgba, c.src⟩ l pt with
    | error u => simp [hd] at h
    | ok pix =>
      simp only [hd] at h
      obtain ⟨rgba1, h1, h2, h3⟩ := ih ⟨pt.X, toInt32 (pt.Y + c.PointToFixed env 18)⟩
        ⟨rgba.Rect, pix⟩ _ (toInt32_idem _) h
      refine ⟨rgba1, h1, h2, ?_⟩
      have e : toInt32 (toInt32 (pt.Y + c.PointToFixed env 18) + (rest.length : Int) *
          c.PointToFixed env 18) = toInt32 (pt.Y + ((l :: rest).length : Int) *
          c.PointToFixed env 18) := by
        rw [toInt32_add]; congr 1; simp only [List.length_cons]; push_cast; ring
      rw [← e]
      exact h3

theorem drawStringImage_total (env : Env) (this : Watermark) (text : GoString)
    (width height : Int) (htotal : ∀ c1 s p, ∃ pix, env.DrawString c1 s p = .ok pix) :
    ∃ m, (this.drawStringImage env text width height).2 = .ok m := by
  simp only [Watermark.drawStringImage]
  exact drawLines_total env _ htotal _ _ _ _

theorem dotDrawString_total (rise : Context → Int) (c1 : Context) (s : GoString)
    (p : Point26_6) : ∃ pix, dotDrawString (rise c1) c1 s p = .ok pix :=
  ⟨_, rfl⟩

/-- In `inkEnv` at 72 DPI, line `n` of the text `aLines n` is drawn at the cursor
`n` steps down in `int32` arithmetic. -/
theorem aLines_cursor (this : Watermark) (hdpi : this.Dpi = 72) (n : Nat) (width height : Int) :
    (this.drawStringImage inkEnv (aLines n) width height).1[n]? =
      some ⟨['a'], ⟨640, toInt32 (832 + n * 1152)⟩⟩ := by
  obtain ⟨m, hm⟩ := drawStringImage_total inkEnv this (aLines n) width height
    (fun c1 s p => dotDrawString_total (fun c => min 1 c.emPixels) c1 s p)
  rw [(drawStringImage_72 inkEnv this _ width height hdpi).2 m hm, Split_aLines,
    callsFrom_getElem 1152 _ ⟨640, 832⟩ n (by decide)]
  simp

/-- In `inkEnv`, with font size 14 at 72 DPI, the last line of the text `aLines n`
leaves its pixel in the overlay when its cursor is inside it. -/
theorem aLines_pixel (this : Watermark) (hsize : this.FontSize = 14) (hdpi : this.Dpi = 72)
    (n : Nat) (width : Int) (m : RGBAImage)
    (hin : (Point.mk 10 (toInt32 (832 + n * 1152) / 64 - 1)).In (Rect 0 0 width 15) = true)
    (hm : (this.drawStringImage inkEnv (aLines n) width 15).2 = .ok m) :
    m.At 10 (toInt32 (832 + n * 1152) / 64 - 1) =
      ⟨this.FontGrayscaleColor, this.FontGrayscaleColor, this.FontGrayscaleColor, 255⟩ := by
  have h12 := PointToFixed_12 inkEnv ⟨this.Dpi, this.font, this.FontSize,
    (NewRGBA (Rect 0 0 width 15)).Bounds, NewRGBA (Rect 0 0 width 15),
    this.FontGrayscaleColor⟩ hdpi
  have h18 := PointToFixed_18 inkEnv ⟨this.Dpi, this.font, this.FontSize,
    (NewRGBA (Rect 0 0 width 15)).Bounds, NewRGBA (Rect 0 0 width 15),
    this.FontGrayscaleColor⟩ hdpi
  have hpt : freetypePt 10 ((10 : Int) + ((768 : Int) >>> 8)) = ⟨640, 832⟩ := by decide
  simp only [Watermark.drawStringImage, h12, hpt, Split_aLines] at hm
  obtain ⟨rgba1, h1, h2, h3⟩ := drawLines_last inkEnv _ _ _ ⟨640, 832⟩ _ _ m (by decide) hm
  rw [h18, List.length_replicate] at h3
  have hem : (Context.mk this.Dpi this.font this.FontSize
      (NewRGBA (Rect 0 0 width 15)).Bounds rgba1 this.FontGrayscaleColor).emPixels = 14 := by
    simp only [Context.emPixels, hsize, hdpi]; decide
  have hpix := (Except.ok.inj h3).symm
  have hR : m.Rect = Rect 0 0 width 15 := h2
  rw [RGBAImage.At, hR, if_pos hin, hpix]
  have hmin : min (1 : Int) 14 = 1 := by decide
  simp only [inkEnv, dotDrawString, hem, hmin]
  rw [if_pos]
  refine ⟨by simp, by decide, trivial, ?_⟩
  exact hin

/-- The rasteriser of `inkEnv` changes no pixel outside the clip rectangle or above
the em box of the line it draws. -/
theorem inkEnv_keeps_to_em_box : ∀ c1 s p pix, inkEnv.DrawString c1 s p = .ok pix → ∀ x y,
    ((Point.mk x y).In c1.clipRect = false ∨ y < p.Y / 64 - c1.emPixels) →
      pix x y = c1.dst.Pix x y := by
  intro c1 s p pix h x y hcase
  have hpix := (Except.ok.inj h).symm
  rw [hpix]
  simp only []
  rw [if_neg]
  rintro ⟨_, _, hy, hin⟩
  rcases hcase with hout | habove
  · rw [hin] at hout; cases hout
  · omega

/-- The theorem `C10_later_lines_below_overlay` at the second line of a two-line
text on `c.png`, with a rasteriser that draws inside the em box: the cursor is at
`(10, 31)` and the composited raster is that of the first line alone. -/
theorem C10_witness :
    (⟨['b'], ⟨640, 1984⟩⟩ : DrawCall).pt = ⟨10 * 64, (13 + 18 * ((1 : Nat) : Int)) * 64⟩ ∧
    (Watermark.Watermark inkEnv defaultWatermark exampleFS cPng bPng
        ((Split twoLineText crlf).headD [])).dst =
      (Watermark.Watermark inkEnv defaultWatermark exampleFS cPng bPng twoLineText).dst :=
  ⟨((C10_later_lines_below_overlay inkEnv defaultWatermark exampleFS cPng bPng twoLineText
      rfl rfl).1 1 ⟨['b'], ⟨640, 1984⟩⟩ (by decide) rfl).1,
    ((C10_later_lines_below_overlay inkEnv defaultWatermark exampleFS cPng bPng twoLineText
      rfl rfl).2.2 inkEnv_keeps_to_em_box (by decide) _ rfl).2⟩

/-- Claim C10 fails as stated. In the text of 3728271 lines `a` the `int32`
cursor has wrapped: line 3728270 is drawn at `(10, 9)`, inside the overlay, and
leaves a pixel in it that the first line alone does not. And with a font whose
glyphs rise 20 pixels above the baseline, the second line of a two-line text,
drawn at `(10, 31)`, leaves a pixel in the overlay that the first line alone
does not. -/
theorem C10_later_line_appears :
    (Watermark.Watermark inkEnv defaultWatermark exampleFS cPng bPng
        (aLines 3728270)).calls[3728270]? = some ⟨['a'], freetypePt 10 9⟩ ∧
    ((Watermark.Watermark inkEnv defaultWatermark exampleFS cPng bPng
        (aLines 3728270)).mask.map fun m => m.At 10 8) = some ⟨0, 0, 0, 255⟩ ∧
    ((Watermark.Watermark inkEnv defaultWatermark exampleFS cPng bPng
        ['a']).mask.map fun m => m.At 10 8) = some RGBA.Transparent ∧
    (Watermark.Watermark tallGlyphEnv defaultWatermark exampleFS cPng bPng
        twoLineText).calls[1]? = some ⟨['b'], freetypePt 10 31⟩ ∧
    ((Watermark.Watermark tallGlyphEnv defaultWatermark exampleFS cPng bPng
        twoLineText).mask.map fun m => m.At 10 11) = some ⟨0, 0, 0, 255⟩ ∧
    ((Watermark.Watermark tallGlyphEnv defaultWatermark exampleFS cPng bPng
        ['a']).mask.map fun m => m.At 10 11) = some RGBA.Transparent := by
  have hc := Watermark_calls inkEnv defaultWatermark exampleFS cPng bPng (aLines 3728270)
    (exampleImage 20 4) rfl rfl
  have ht : (if defaultWatermark.ResizeWith = 0 then
      defaultWatermark.setResizeWith (exampleImage 20 4).Bounds.Max.X else defaultWatermark) =
      resizeWatermark 20 0 := by decide
  have hW : (Resize (exampleImage 20 4) (resizeWatermark 20 0).ResizeWith
      (resizeWatermark 20 0).ResizeHeight inkEnv.Lanczos).Bounds.Max.X = 20 := by decide
  have h15 : defaultFontSize + 1 = 15 := by decide
  rw [ht, hW, h15] at hc
  obtain ⟨m, hm⟩ := drawStringImage_total inkEnv (resizeWatermark 20 0) (aLines 3728270) 20 15
    (fun c1 s p => dotDrawString_total (fun c => min 1 c.emPixels) c1 s p)
  have hcur : (⟨640, toInt32 (832 + ((3728270 : Nat) : Int) * 1152)⟩ : Point26_6) =
      freetypePt 10 9 := by decide
  have hrow : toInt32 (832 + ((3728270 : Nat) : Int) * 1152) / 64 - 1 = 8 := by decide
  refine ⟨?_, ?_, by decide, by decide, by decide, by decide⟩
  · rw [hc.1, aLines_cursor (resizeWatermark 20 0) rfl 3728270 20 15, hcur]
  · have hp := aLines_pixel (resizeWatermark 20 0) rfl rfl 3728270 20 m
      (by rw [hrow]; decide) hm
    rw [hrow] at hp
    rw [hc.2, hm]
    simp only [Except.toOption, Option.map_some', hp]
    rfl

end watermark
